import Mathlib

/-!
# Verification of the webspace-ng daemon `Manager` (src/webspace_ng/daemon/webspace.py)

Shallow embedding of the daemon's orchestration state and operations.

Modelling conventions:
* Python `str` is modelled as `List Char` (`PyStr`); literals are written via `pys`.
* Python `dict` (insertion-ordered, updating an existing key keeps its slot) is
  modelled as an association list with `dictGet?` / `dictInsert` / `dictErase`.
* Python `set` (`forwarded_ports`) is modelled as a duplicate-free `List Int`
  (`set.add` appends only when absent); `sorted(s)` is `List.insertionSort`.
* Python exceptions are modelled by the `Err` type.  Operations that mutate the
  `Manager` return `MState × Except Err α`: on an error the returned state keeps
  every mutation performed before the exception was raised, exactly as in Python.
* `random.randrange(a, b)` is modelled by passing the drawn value `r` as an
  explicit argument; theorems carry the hypothesis `a ≤ r < b`.
* IPv4 addresses are modelled by their numeric 32-bit value (the string parse
  performed by `ipaddress.IPv4Address` is abstracted); the LXD network CIDR is a
  base address plus mask length.
* External collaborators (LXD runtime, TCP proxy, DNS, `pwd`) are modelled as
  fields of the state (`containers`, `proxy`, `sysUsers`) or explicit arguments
  (`dns`).
-/

/-- Python `str` as a list of characters. -/
abbrev PyStr := List Char

/-- Convert a Lean string literal to a `PyStr`. -/
def pys (s : String) : PyStr := s.data

/-- Python exceptions raised by the daemon code. -/
inductive Err
  | webspace (msg : PyStr)  -- WebspaceError
  | valueError              -- ValueError (e.g. list.remove, int() parse failures)
  | keyError                -- KeyError (dict lookup failures)
  | typeError               -- TypeError (e.g. subscribing a non-subscriptable object)
  | indexError              -- IndexError (list.pop on an empty list)
  | notFound                -- pylxd NotFound (containers.get on a missing name)
  | unboundLocal            -- UnboundLocalError (reading a never-assigned local)
deriving DecidableEq

/-- View of an `Except` as a sum, for deciding equality. -/
def exceptToSum {ε α : Type} : Except ε α → ε ⊕ α
  | .error e => .inl e
  | .ok a => .inr a

instance {ε α : Type} [DecidableEq ε] [DecidableEq α] : DecidableEq (Except ε α) := fun a b =>
  decidable_of_iff (exceptToSum a = exceptToSum b)
    (by cases a <;> cases b <;> simp [exceptToSum])

/-- `d[k]` lookup in a Python dict modelled as an association list. -/
def dictGet? {κ α : Type} [DecidableEq κ] : List (κ × α) → κ → Option α
  | [], _ => none
  | (k', v) :: rest, k => if k' = k then some v else dictGet? rest k

/-- `d.get(k, default)`. -/
def dictGetD {κ α : Type} [DecidableEq κ] (d : List (κ × α)) (k : κ) (dflt : α) : α :=
  (dictGet? d k).getD dflt

/-- `k in d` membership test for a Python dict. -/
def dictMem {κ α : Type} [DecidableEq κ] (d : List (κ × α)) (k : κ) : Bool :=
  (dictGet? d k).isSome

/-- `d[k] = v`: update in place if the key exists, else append (insertion order). -/
def dictInsert {κ α : Type} [DecidableEq κ] : List (κ × α) → κ → α → List (κ × α)
  | [], k, v => [(k, v)]
  | (k', v') :: rest, k, v =>
      if k' = k then (k, v) :: rest else (k', v') :: dictInsert rest k v

/-- `del d[k]` ignoring a missing key (callers that can raise check membership first). -/
def dictErase {κ α : Type} [DecidableEq κ] : List (κ × α) → κ → List (κ × α)
  | [], _ => []
  | (k', v') :: rest, k => if k' = k then rest else (k', v') :: dictErase rest k

/-- Python `list.remove`: drop the first occurrence, `ValueError` if absent. -/
def listRemove {α : Type} [DecidableEq α] : List α → α → Except Err (List α)
  | [], _ => .error .valueError
  | x :: rest, a =>
      if x = a then .ok rest
      else match listRemove rest a with
        | .error e => .error e
        | .ok rest' => .ok (x :: rest')

/-- Python `s.split(',')` (always at least one, possibly empty, field). -/
def splitComma : List Char → List (List Char)
  | [] => [[]]
  | c :: rest =>
      match splitComma rest with
      | [] => [[]]  -- unreachable: splitComma never returns []
      | s :: ss => if c = ',' then [] :: s :: ss else (c :: s) :: ss

/-- Python `','.join(l)`. -/
def joinComma : List PyStr → PyStr
  | [] => []
  | [d] => d
  | d :: rest => d ++ ',' :: joinComma rest

/-- Python `s.split(':')`. -/
def splitColon : List Char → List (List Char)
  | [] => [[]]
  | c :: rest =>
      match splitColon rest with
      | [] => [[]]
      | s :: ss => if c = ':' then [] :: s :: ss else (c :: s) :: ss

/-- Decimal digit value of a character, if it is a digit. -/
def digitVal (c : Char) : Option Nat :=
  if c.isDigit then some (c.toNat - 48) else none

/-- Accumulate a decimal number over a digit string; `none` on a non-digit. -/
def parseDigitsAux : List Char → Nat → Option Nat
  | [], acc => some acc
  | c :: cs, acc =>
      match digitVal c with
      | none => none
      | some d => parseDigitsAux cs (acc * 10 + d)

/-- Python `int(s)` on a string: optional sign then decimal digits. -/
def pyInt : PyStr → Option Int
  | [] => none
  | '-' :: rest =>
      match rest with
      | [] => none
      | _ => (parseDigitsAux rest 0).map (fun n => -(n : Int))
  | '+' :: rest =>
      match rest with
      | [] => none
      | _ => (parseDigitsAux rest 0).map (fun n => (n : Int))
  | s => (parseDigitsAux s 0).map (fun n => (n : Int))

/-- Python `str(i)` for an integer. -/
def intToChars (i : Int) : PyStr :=
  if i < 0 then '-' :: Nat.toDigits 10 (-i).toNat else Nat.toDigits 10 i.toNat

/-- Daemon configuration (the fields of `config` the Manager reads). -/
structure Config where
  runLimit : Nat          -- config.run_limit
  portsStart : Int        -- config.ports.start
  portsEnd : Int          -- config.ports.end
  portsMax : Nat          -- config.ports.max
  maxStartupDelay : Int   -- config.max_startup_delay
  lxdSuffix : PyStr       -- config.lxd.suffix
  domainSuffix : PyStr    -- config.domain_suffix
  containerIface : PyStr  -- config.lxd.net.container_iface
  cidrBase : Nat          -- config.lxd.net.cidr network address (numeric IPv4)
  cidrPfx : Nat           -- config.lxd.net.cidr mask length
deriving DecidableEq

/-- One entry of a container's network state: `{family, address}`. -/
structure NetAddr where
  family : PyStr
  address : Nat  -- numeric IPv4 value of the `address` string
deriving DecidableEq

/-- The LXD-side view of one container: its status code and its persistent
`config` key/value map, plus the network state reported by `container.state()`. -/
structure ContainerData where
  statusCode : Nat  -- 103 = running
  config : List (PyStr × PyStr)
  network : List (PyStr × List NetAddr)  -- iface name ↦ addresses
deriving DecidableEq

/-- An interactive console/exec session (tunnel details abstracted). -/
structure Session where
  sockPath : PyStr
deriving DecidableEq

/-- Observable side effects on a session's tunnel/control channel. -/
inductive SEvent
  | signalSent (sock : PyStr) (signum : Int)  -- session.control.signal(n)
  | stopped (sock : PyStr) (join : Bool)      -- session.stop(join=...)
deriving DecidableEq

/-- The Manager's mutable state, together with the external world it consults:
the LXD runtime (`containers`), the TCP proxy forwarding table (`proxy`) and
the system user database (`sysUsers`). -/
structure MState where
  cfg : Config
  containers : List (PyStr × ContainerData)
  runningContainers : List PyStr
  ipCache : List (PyStr × Nat)
  forwardedPorts : List Int  -- a Python set: duplicate-free, order immaterial
  customDomains : List (PyStr × PyStr)  -- domain ↦ owning user
  proxy : List (Int × PyStr × Int)      -- (eport, user, iport) forwardings
  execSessions : List (PyStr × List (PyStr × Session))
  consoleSessions : List (PyStr × Session)
  sysUsers : List PyStr
  events : List SEvent
deriving DecidableEq

/-- `user_container`: `'{}{}'.format(user, suffix)`. -/
def user_container (cfg : Config) (user : PyStr) : PyStr := user ++ cfg.lxdSuffix

/-- Set a container's status code in the runtime (effect of start/stop/restart). -/
def setStatus (cs : List (PyStr × ContainerData)) (cname : PyStr) (st : Nat) :
    List (PyStr × ContainerData) :=
  match dictGet? cs cname with
  | none => cs
  | some cd => dictInsert cs cname { cd with statusCode := st }

/-- `str2bool`. -/
def str2bool (s : PyStr) : Except Err Bool :=
  let ls := s.map Char.toLower
  if ls = pys "true" then .ok true
  else if ls = pys "false" then .ok false
  else .error .valueError

/-- Module-level `port` validator: `int(s)` must lie in 1..65535. -/
def portVal (s : PyStr) : Except Err Int :=
  match pyInt s with
  | none => .error .valueError
  | some p => if p ≤ 0 ∨ p > 65535 then .error .valueError else .ok p

/-- `Manager.startup_delay` validator. -/
def startup_delayVal (cfg : Config) (s : PyStr) : Except Err Int :=
  match pyInt s with
  | none => .error .valueError
  | some i =>
      if i > cfg.maxStartupDelay then .error .valueError
      else if i < 0 then .error .valueError
      else .ok i

/-- Result of reading an option through a reserved validator (coerced value). -/
inductive OptVal
  | b (v : Bool)
  | i (v : Int)
  | s (v : PyStr)
deriving DecidableEq

/-- Python truthiness of an option value (used by `not` in `boot_and_host`). -/
def pyTruthy : OptVal → Bool
  | .b v => v
  | .i v => decide (v ≠ 0)
  | .s v => decide (v ≠ [])

/-- `Manager.reserved_options`: key ↦ validator. -/
def reservedValidator (cfg : Config) (key : PyStr) : Option (PyStr → Except Err OptVal) :=
  if key = pys "terminate_ssl" then some (fun v => (str2bool v).map OptVal.b)
  else if key = pys "startup_delay" then some (fun v => (startup_delayVal cfg v).map OptVal.i)
  else if key = pys "http_port" then some (fun v => (portVal v).map OptVal.i)
  else if key = pys "https_port" then some (fun v => (portVal v).map OptVal.i)
  else none

/-- `Manager.private_options`. -/
def private_options : List PyStr := [pys "_domains", pys "_ports", pys "_domain_suffix"]

/-- `Manager.get_user_option`: read `user.<key>` and coerce through the reserved
validator if there is one; `KeyError` on a missing key. -/
def get_user_option (cfg : Config) (cd : ContainerData) (key : PyStr) : Except Err OptVal :=
  match dictGet? cd.config (pys "user." ++ key) with
  | none => .error .keyError
  | some v =>
      match reservedValidator cfg key with
      | some f => f v
      | none => .ok (.s v)

/-- `Manager.stop_container`: drop any cached IP, `running_containers.remove(name)`
(`ValueError` if absent), then stop the container in the runtime. -/
def stop_container (st : MState) (cname : PyStr) : MState × Except Err Unit :=
  let st1 := { st with ipCache := dictErase st.ipCache cname }
  match listRemove st1.runningContainers cname with
  | .error e => (st1, .error e)
  | .ok rest =>
      ({ st1 with runningContainers := rest,
                  containers := setStatus st1.containers cname 102 }, .ok ())

/-- `Manager.start_container`: under the lock, if `running_containers` is at
`run_limit`, pop index 0 and — if that container is still running — re-enter
`stop_container` on it; then start the target, append its name, and sleep for
its configured `startup_delay` (the sleep itself has no state effect, but the
option read can raise). -/
def start_container (st : MState) (cname : PyStr) : MState × Except Err Unit :=
  let evict : MState × Except Err Unit :=
    if st.runningContainers.length = st.cfg.runLimit then
      match st.runningContainers with
      | [] => (st, .error .indexError)  -- pop(0) on an empty list
      | c :: rest =>
          let st1 := { st with runningContainers := rest }
          match dictGet? st1.containers c with
          | none => (st1, .error .notFound)  -- client.containers.get(c)
          | some cd =>
              if cd.statusCode = 103 then stop_container st1 c
              else (st1, .ok ())
    else (st, .ok ())
  match evict.2 with
  | .error e => (evict.1, .error e)
  | .ok _ =>
      let st2 := { evict.1 with containers := setStatus evict.1.containers cname 103 }
      let st3 := { st2 with runningContainers := st2.runningContainers ++ [cname] }
      match dictGet? st3.containers cname with
      | none => (st3, .error .notFound)
      | some cd =>
          match get_user_option st3.cfg cd (pys "startup_delay") with
          | .error e => (st3, .error e)
          | .ok _ => (st3, .ok ())

/-- The exclusion walk of `next_random_port`: for each excluded port `p` (in
ascending order), stop if the current value is below `p`, else add one. -/
def walkExclusions : List Int → Int → Int
  | [], r => r
  | p :: ps, r => if r < p then r else walkExclusions ps (r + 1)

/-- `set.add`: insert only when absent. -/
def pySetAdd (s : List Int) (x : Int) : List Int := if x ∈ s then s else s ++ [x]

/-- `Manager.next_random_port`, with the `random.randrange` draw `r` passed in
explicitly.  Raises the `WebspaceError` when `len(to_exclude) + start == end`,
and `randrange`'s own `ValueError` when its range `[start, end - k + 1)` is
empty. -/
def next_random_port (cfg : Config) (forwarded : List Int) (r : Int) : Except Err Int :=
  let to_exclude := forwarded.insertionSort (· ≤ ·)
  if (to_exclude.length : Int) + cfg.portsStart = cfg.portsEnd then
    .error (.webspace (pys "all ports have been allocated"))
  else if cfg.portsEnd - (to_exclude.length : Int) + 1 ≤ cfg.portsStart then
    .error .valueError
  else
    .ok (walkExclusions to_exclude r)

/-- Message of the "not initialized" `WebspaceError` raised by `check_init`. -/
def notInitMsg : PyStr := pys "Your container has not been initialized"

/-- Message of the "not running" `WebspaceError` raised by `check_running`. -/
def notRunningMsg : PyStr := pys "Your container is not running"

/-- The validation step of `set_option` on a reserved key: run the registered
validator for its exception only. -/
def validate_reserved (cfg : Config) (key value : PyStr) : Except Err Unit :=
  match reservedValidator cfg key with
  | none => .ok ()
  | some f => (f value).map (fun _ => ())

/-- `Manager.set_option` (named `setOption` here: `set_option` is a Lean
keyword): reject private keys, run the reserved validator (its exception
aborts the call before any write), then store the raw value under
`user.<key>` and save. -/
def setOption (st : MState) (user key value : PyStr) : MState × Except Err Unit :=
  let cname := user_container st.cfg user
  match dictGet? st.containers cname with
  | none => (st, .error (.webspace notInitMsg))
  | some cd =>
      if key ∈ private_options then
        (st, .error (.webspace (pys "is a private option and may not be set")))
      else
        match validate_reserved st.cfg key value with
        | .error e => (st, .error e)
        | .ok _ =>
            let cd' := { cd with config := dictInsert cd.config (pys "user." ++ key) value }
            ({ st with containers := dictInsert st.containers cname cd' }, .ok ())

/-- `Manager.unset_option` (named `unsetOption` here): reject private and reserved keys, then delete the
`user.<key>` entry (`KeyError` if absent) and save. -/
def unsetOption (st : MState) (user key : PyStr) : MState × Except Err Unit :=
  let cname := user_container st.cfg user
  match dictGet? st.containers cname with
  | none => (st, .error (.webspace notInitMsg))
  | some cd =>
      if key ∈ private_options ∨ (reservedValidator st.cfg key).isSome then
        (st, .error (.webspace (pys "is a reserved/private option and may not be unset")))
      else
        match dictGet? cd.config (pys "user." ++ key) with
        | none => (st, .error .keyError)
        | some _ =>
            let cd' := { cd with config := dictErase cd.config (pys "user." ++ key) }
            ({ st with containers := dictInsert st.containers cname cd' }, .ok ())

/-- `Manager.get_container_domains`: split `user._domains` on commas, keeping
non-empty entries. -/
def get_container_domains (cd : ContainerData) : List PyStr :=
  (splitComma (dictGetD cd.config (pys "user._domains") [])).filter (fun d => d ≠ [])

/-- `Manager.set_container_domains`: store the comma-joined list and save. -/
def set_container_domains (st : MState) (cname : PyStr) (domains : List PyStr) : MState :=
  match dictGet? st.containers cname with
  | none => st
  | some cd =>
      let cd' := { cd with config := dictInsert cd.config (pys "user._domains") (joinComma domains) }
      { st with containers := dictInsert st.containers cname cd' }

/-- `Manager.add_domain`.  `dns` gives the TXT strings returned by the resolver
for a domain.  Fails if the domain is already claimed by anyone; else requires
a TXT record equal to `webspace:<user>`; on success inserts into the global map
and appends to the container's persisted list (in that order, under the lock). -/
def add_domain (dns : PyStr → List PyStr) (st : MState) (user domain : PyStr) :
    MState × Except Err Unit :=
  let cname := user_container st.cfg user
  match dictGet? st.containers cname with
  | none => (st, .error (.webspace notInitMsg))
  | some cd =>
      if dictMem st.customDomains domain then
        (st, .error (.webspace (pys "has already been configured as a custom domain")))
      else
        let verified := (dns domain).any (fun txt => txt = pys "webspace:" ++ user)
        if ¬ verified then
          (st, .error (.webspace (pys "has not been verified")))
        else
          let st1 := { st with customDomains := dictInsert st.customDomains domain user }
          (set_container_domains st1 cname (get_container_domains cd ++ [domain]), .ok ())

/-- `Manager.remove_domain`: fails if the domain is not on record; else deletes
from the global map, then `list.remove`s it from the parsed persisted list
(a `ValueError` here leaves the map already mutated) and saves. -/
def remove_domain (st : MState) (user domain : PyStr) : MState × Except Err Unit :=
  let cname := user_container st.cfg user
  match dictGet? st.containers cname with
  | none => (st, .error (.webspace notInitMsg))
  | some cd =>
      if ¬ dictMem st.customDomains domain then
        (st, .error (.webspace (pys "has not been configured as a custom domain")))
      else
        let st1 := { st with customDomains := dictErase st.customDomains domain }
        match listRemove (get_container_domains cd) domain with
        | .error e => (st1, .error e)
        | .ok domains => (set_container_domains st1 cname domains, .ok ())

/-- Python `s.find(c)`: index of the first occurrence, `-1` if absent. -/
def pyFind : PyStr → Char → Int
  | [], _ => -1
  | c :: rest, t =>
      if c = t then 0
      else
        let r := pyFind rest t
        if r = -1 then -1 else r + 1

/-- Python `s[i:]` with a possibly negative index. -/
def pySliceFrom (s : PyStr) (i : Int) : PyStr :=
  if i < 0 then s.drop (s.length - (-i).toNat) else s.drop i.toNat

/-- Python `s[:i]` with a possibly negative index. -/
def pySliceTo (s : PyStr) (i : Int) : PyStr :=
  if i < 0 then s.take (s.length - (-i).toNat) else s.take i.toNat

/-- `'*' + host[host.find('.'):]` — the wildcard form computed by
`boot_and_host` (for a dotless host this is `'*'` plus the host's last
character, since `find` returns `-1`). -/
def wildcard_host (host : PyStr) : PyStr :=
  '*' :: pySliceFrom host (pyFind host '.')

/-- Modelled from the spec: the wildcard form as the spec words it — the
host's first label replaced by the wildcard marker.  Used only to compare the
spec's description against the code's `wildcard_host`. -/
def wildcard_form_spec (host : PyStr) : PyStr :=
  '*' :: host.dropWhile (fun c => c ≠ '.')

/-- The host-to-user resolution chain at the top of `Manager.boot_and_host`:
exact custom-domain match, wildcard match, else the primary-domain suffix with
a `pwd` lookup; errors are the `(None, reason)` typed reasons. -/
def resolve_user (st : MState) (host : PyStr) : Except PyStr PyStr :=
  let wc := wildcard_host host
  match dictGet? st.customDomains host with
  | some u => .ok u
  | none =>
      match dictGet? st.customDomains wc with
      | some u => .ok u
      | none =>
          if st.cfg.domainSuffix.isSuffixOf host then
            let u := pySliceTo host (-(st.cfg.domainSuffix.length : Int))
            if u ∈ st.sysUsers then .ok u else .error (pys "user")
          else .error (pys "not_webspace")

/-- The value returned by `get_container_ip`: either `str(ip)` (a cached entry
or an address that was matched against the subnet) or a bare `IPv4Address`
object (the loop variable when the last scanned address was not in the
subnet). -/
inductive IpResult
  | ipstr (a : Nat)
  | ipobj (a : Nat)
deriving DecidableEq

/-- `ip in config.lxd.net.cidr`. -/
def inCidr (cfg : Config) (a : Nat) : Bool :=
  a / 2 ^ (32 - cfg.cidrPfx) = cfg.cidrBase / 2 ^ (32 - cfg.cidrPfx)

/-- The scan loop of `get_container_ip` over the interface's addresses: the
loop variable is rebound on every `inet` address; an address inside the subnet
is stringified and cached, but the loop keeps going (there is no `break`). -/
def ip_scan (cfg : Config) (cname : PyStr) :
    List NetAddr → Option IpResult → List (PyStr × Nat) → Option IpResult × List (PyStr × Nat)
  | [], ip, cache => (ip, cache)
  | a :: rest, ip, cache =>
      if a.family = pys "inet" then
        if inCidr cfg a.address then
          ip_scan cfg cname rest (some (.ipstr a.address)) (dictInsert cache cname a.address)
        else
          ip_scan cfg cname rest (some (.ipobj a.address)) cache
      else ip_scan cfg cname rest ip cache

/-- `Manager.get_container_ip`: boot on demand, serve the cache, else query the
container's network state; `WebspaceError('iface')` if the configured interface
is missing; else run the scan loop (an empty scan leaves the local unbound). -/
def get_container_ip (st : MState) (cname : PyStr) : MState × Except Err IpResult :=
  match dictGet? st.containers cname with
  | none => (st, .error .notFound)
  | some cd0 =>
      let booted : MState × Except Err Unit :=
        if cd0.statusCode ≠ 103 then start_container st cname else (st, .ok ())
      match booted.2 with
      | .error e => (booted.1, .error e)
      | .ok _ =>
          let st1 := booted.1
          match dictGet? st1.ipCache cname with
          | some ip => (st1, .ok (.ipstr ip))
          | none =>
              match dictGet? st1.containers cname with
              | none => (st1, .error .notFound)
              | some cd =>
                  match dictGet? cd.network st1.cfg.containerIface with
                  | none => (st1, .error (.webspace (pys "iface")))
                  | some addrs =>
                      let scanned := ip_scan st1.cfg cname addrs none st1.ipCache
                      match scanned.1 with
                      | none => ({ st1 with ipCache := scanned.2 }, .error .unboundLocal)
                      | some ipr => ({ st1 with ipCache := scanned.2 }, .ok ipr)

/-- The `(scheme, str(ip), port)` / `(None, reason)` results of `boot_and_host`. -/
inductive BootHost
  | failed (reason : PyStr)
  | good (scheme : PyStr) (ip : Nat) (portNum : Int)
deriving DecidableEq

/-- The remainder of `Manager.boot_and_host` once a user has been resolved:
check the container exists (`'init'`), boot and fetch its IP (a `WebspaceError`
message becomes the failure reason; other exceptions propagate), then pick the
scheme — querying `terminate_ssl` only when the TLS hint is set — and the
`<scheme>_port` option. -/
def boot_and_host_resolved (st : MState) (user : PyStr) (https_hint : Bool) :
    MState × Except Err BootHost :=
  let cname := user_container st.cfg user
  match dictGet? st.containers cname with
  | none => (st, .ok (.failed (pys "init")))
  | some _ =>
      match get_container_ip st cname with
      | (st1, .error (.webspace m)) => (st1, .ok (.failed m))
      | (st1, .error e) => (st1, .error e)
      | (st1, .ok ipr) =>
          match dictGet? st1.containers cname with
          | none => (st1, .error .notFound)
          | some cd =>
              let schemeRes : Except Err PyStr :=
                if https_hint then
                  match get_user_option st1.cfg cd (pys "terminate_ssl") with
                  | .error e => .error e
                  | .ok v => .ok (if pyTruthy v then pys "http" else pys "https")
                else .ok (pys "http")
              match schemeRes with
              | .error e => (st1, .error e)
              | .ok scheme =>
                  match get_user_option st1.cfg cd (scheme ++ pys "_port") with
                  | .error e => (st1, .error e)
                  | .ok pv =>
                      let ipNat := match ipr with | .ipstr a => a | .ipobj a => a
                      let pn := match pv with | .i n => n | .b _ => 0 | .s _ => 0
                      (st1, .ok (.good scheme ipNat pn))

/-- `Manager.boot_and_host` (admin-only entry point used by the HTTP router). -/
def boot_and_host (st : MState) (host : PyStr) (https_hint : Bool) :
    MState × Except Err BootHost :=
  match resolve_user st host with
  | .error reason => (st, .ok (.failed reason))
  | .ok user => boot_and_host_resolved st user https_hint

/-- `Manager.check_valid_port`: `(port != 0 and port < start) or port > end`
raises (note the Python `and`/`or` precedence); otherwise the port is valid.
The `type(port) != int` test is subsumed by the typed embedding. -/
def check_valid_port (cfg : Config) (p : Int) : Except Err Unit :=
  if (p ≠ 0 ∧ p < cfg.portsStart) ∨ p > cfg.portsEnd then
    .error (.webspace (pys "is not a valid port"))
  else .ok ()

/-- Parse one `internal:external` entry of `user._ports` (`map(int, p.split(':'))`
unpacked into exactly two values). -/
def parse_port_entry (s : PyStr) : Except Err (Int × Int) :=
  match splitColon s with
  | [a, b] =>
      match pyInt a, pyInt b with
      | some x, some y => .ok (x, y)
      | _, _ => .error .valueError
  | _ => .error .valueError

/-- Build the `{iport: eport}` dict from the parsed entries (later keys win). -/
def build_ports : List PyStr → List (Int × Int) → Except Err (List (Int × Int))
  | [], acc => .ok acc
  | s :: rest, acc =>
      match parse_port_entry s with
      | .error e => .error e
      | .ok (i, e) => build_ports rest (dictInsert acc i e)

/-- `Manager.get_container_ports`: parse `user._ports` into the
internal ↦ external dict. -/
def get_container_ports (cd : ContainerData) : Except Err (List (Int × Int)) :=
  build_ports ((splitComma (dictGetD cd.config (pys "user._ports") [])).filter (fun p => p ≠ [])) []

/-- Encode one `internal:external` pair as `f'{i}:{e}'`. -/
def encode_port_pair (p : Int × Int) : PyStr := intToChars p.1 ++ ':' :: intToChars p.2

/-- `Manager.set_container_ports`: store the comma-joined encoded pairs and save. -/
def set_container_ports (st : MState) (cname : PyStr) (ports : List (Int × Int)) : MState :=
  match dictGet? st.containers cname with
  | none => st
  | some cd =>
      let encoded := joinComma (ports.map encode_port_pair)
      let cd' := { cd with config := dictInsert cd.config (pys "user._ports") encoded }
      { st with containers := dictInsert st.containers cname cd' }

/-- `tcp_proxy.add_forwarding(eport, user, iport)`. -/
def proxy_add (st : MState) (eport : Int) (user : PyStr) (iport : Int) : MState :=
  { st with proxy := st.proxy ++ [(eport, user, iport)] }

/-- `tcp_proxy.remove_forwarding(eport)` (tolerant of unknown mappings). -/
def proxy_remove (st : MState) (eport : Int) : MState :=
  { st with proxy := st.proxy.filter (fun f => f.1 ≠ eport) }

/-- `Manager.add_port` (under the lock), with the `randrange` draw `r` passed
explicitly for the `eport == 0` path. -/
def add_port (st : MState) (user : PyStr) (iport eport : Int) (r : Int) :
    MState × Except Err Int :=
  let cname := user_container st.cfg user
  match dictGet? st.containers cname with
  | none => (st, .error (.webspace notInitMsg))
  | some cd =>
      match get_container_ports cd with
      | .error e => (st, .error e)
      | .ok existing =>
          -- `port(iport)` validates the internal port number
          if iport ≤ 0 ∨ iport > 65535 then (st, .error .valueError)
          else if dictMem existing iport then
            (st, .error (.webspace (pys "is already forwarded to port")))
          else if existing.length = st.cfg.portsMax then
            (st, .error (.webspace (pys "you cannot forward any more ports")))
          else
            match check_valid_port st.cfg eport with
            | .error e => (st, .error e)
            | .ok _ =>
                if eport ∈ st.forwardedPorts then
                  (st, .error (.webspace (pys "has already been forwarded")))
                else
                  let chosen : Except Err Int :=
                    if eport = 0 then next_random_port st.cfg st.forwardedPorts r
                    else .ok eport
                  match chosen with
                  | .error e => (st, .error e)
                  | .ok ep =>
                      let st1 := { st with forwardedPorts := pySetAdd st.forwardedPorts ep }
                      let st2 := proxy_add st1 ep user iport
                      (set_container_ports st2 cname (dictInsert existing iport ep), .ok ep)

/-- `Manager.remove_port` (under the lock). -/
def remove_port (st : MState) (user : PyStr) (iport : Int) : MState × Except Err Unit :=
  let cname := user_container st.cfg user
  match dictGet? st.containers cname with
  | none => (st, .error (.webspace notInitMsg))
  | some cd =>
      if iport ≤ 0 ∨ iport > 65535 then (st, .error .valueError)
      else
        match get_container_ports cd with
        | .error e => (st, .error e)
        | .ok ports =>
            match dictGet? ports iport with
            | none => (st, .error (.webspace (pys "no port has been forwarded to")))
            | some ep =>
                let st1 := proxy_remove st ep
                if ep ∈ st1.forwardedPorts then
                  let st2 := { st1 with forwardedPorts := st1.forwardedPorts.erase ep }
                  (set_container_ports st2 cname (dictErase ports iport), .ok ())
                else (st1, .error .keyError)  -- set.remove on a missing element

/-- The port-release loop in `Manager.delete`: for each persisted external
port, remove the proxy forwarding, then `forwarded_ports.remove(eport)`
(`KeyError` if the set does not hold it, leaving the loop half-done). -/
def release_ports (st : MState) : List Int → MState × Except Err Unit
  | [] => (st, .ok ())
  | e :: rest =>
      let st1 := proxy_remove st e
      if e ∈ st1.forwardedPorts then
        release_ports { st1 with forwardedPorts := st1.forwardedPorts.erase e } rest
      else (st1, .error .keyError)

/-- `Manager.delete`: stop if running, release every persisted port forward,
then delete the container from the runtime. -/
def delete (st : MState) (user : PyStr) : MState × Except Err Unit :=
  let cname := user_container st.cfg user
  match dictGet? st.containers cname with
  | none => (st, .error (.webspace notInitMsg))
  | some cd =>
      let stopped : MState × Except Err Unit :=
        if cd.statusCode = 103 then stop_container st cname else (st, .ok ())
      match stopped.2 with
      | .error e => (stopped.1, .error e)
      | .ok _ =>
          match get_container_ports cd with
          | .error e => (stopped.1, .error e)
          | .ok ports =>
              let rel := release_ports stopped.1 (ports.map Prod.snd)
              match rel.2 with
              | .error e => (rel.1, .error e)
              | .ok _ =>
                  ({ rel.1 with containers := dictErase rel.1.containers cname }, .ok ())

/-- `Manager.shutdown` (`check_running` then `stop_container`). -/
def shutdown (st : MState) (user : PyStr) : MState × Except Err Unit :=
  let cname := user_container st.cfg user
  match dictGet? st.containers cname with
  | none => (st, .error (.webspace notInitMsg))
  | some cd =>
      if cd.statusCode ≠ 103 then (st, .error (.webspace notRunningMsg))
      else stop_container st cname

/-- `Manager.reboot`: under the lock, drop the cached IP and restart. -/
def reboot (st : MState) (user : PyStr) : MState × Except Err Unit :=
  let cname := user_container st.cfg user
  match dictGet? st.containers cname with
  | none => (st, .error (.webspace notInitMsg))
  | some cd =>
      if cd.statusCode ≠ 103 then (st, .error (.webspace notRunningMsg))
      else
        ({ st with ipCache := dictErase st.ipCache cname,
                   containers := setStatus st.containers cname 103 }, .ok ())

/-- `Manager.exec_close`: after the `check_exec` chain, signal SIGTERM over the
session's control channel, stop the tunnel with join semantics, then execute
`del self.console_sessions[user][sid]` — which indexes the *console* table:
`KeyError` if the user has no console session, `TypeError` otherwise (a
`ConsoleSession` is not subscriptable).  The exec-session table is never
touched. -/
def exec_close (st : MState) (user sid : PyStr) : MState × Except Err Unit :=
  let cname := user_container st.cfg user
  match dictGet? st.containers cname with
  | none => (st, .error (.webspace notInitMsg))
  | some cd =>
      if cd.statusCode ≠ 103 then (st, .error (.webspace notRunningMsg))
      else
        match dictGet? st.execSessions user with
        | none => (st, .error (.webspace (pys "no active exec sessions")))
        | some sessions =>
            match dictGet? sessions sid with
            | none => (st, .error .keyError)
            | some session =>
                let st1 := { st with events := st.events ++
                  [.signalSent session.sockPath 15, .stopped session.sockPath true] }
                match dictGet? st1.consoleSessions user with
                | none => (st1, .error .keyError)
                | some _ => (st1, .error .typeError)

/-- The state-mutating Manager operations modelled in this file, as one step
type (used to state "after any operation" invariants). -/
inductive Op
  | opGetIp (cname : PyStr)
  | opShutdown (user : PyStr)
  | opReboot (user : PyStr)
  | opDelete (user : PyStr)
  | opSetOption (user key value : PyStr)
  | opUnsetOption (user key : PyStr)
  | opAddDomain (dns : PyStr → List PyStr) (user domain : PyStr)
  | opRemoveDomain (user domain : PyStr)
  | opAddPort (user : PyStr) (iport eport r : Int)
  | opRemovePort (user : PyStr) (iport : Int)
  | opExecClose (user sid : PyStr)

/-- Run one modelled operation, discarding its return value. -/
def applyOp (st : MState) : Op → MState × Except Err Unit
  | .opGetIp cname => let r := get_container_ip st cname; (r.1, r.2.map (fun _ => ()))
  | .opShutdown user => shutdown st user
  | .opReboot user => reboot st user
  | .opDelete user => delete st user
  | .opSetOption user key value => setOption st user key value
  | .opUnsetOption user key => unsetOption st user key
  | .opAddDomain dns user domain => add_domain dns st user domain
  | .opRemoveDomain user domain => remove_domain st user domain
  | .opAddPort user iport eport r => let x := add_port st user iport eport r; (x.1, x.2.map (fun _ => ()))
  | .opRemovePort user iport => remove_port st user iport
  | .opExecClose user sid => exec_close st user sid

/-! ## Concrete fixture states used by witnesses and counterexamples -/

/-- A small daemon configuration: `run_limit = 1`, external port range 1–2,
primary domain suffix `.example.com`, subnet 10.0.0.0/24. -/
def cfgW : Config :=
  { runLimit := 1, portsStart := 1, portsEnd := 2, portsMax := 5, maxStartupDelay := 60,
    lxdSuffix := pys "-ws", domainSuffix := pys ".example.com", containerIface := pys "eth0",
    cidrBase := 167772160, cidrPfx := 24 }

/-- The same configuration with `run_limit = 2`. -/
def cfgW2 : Config := { cfgW with runLimit := 2 }

/-- The same configuration with external port range 10–13. -/
def cfgWPorts : Config := { cfgW with portsStart := 10, portsEnd := 13 }

/-- alice's container: running, with a zero startup delay and two `inet`
addresses on `eth0` — 10.0.0.5 (in the subnet) followed by 192.168.1.7
(outside it). -/
def cdAliceW : ContainerData :=
  { statusCode := 103,
    config := [(pys "user.startup_delay", pys "0")],
    network := [(pys "eth0", [⟨pys "inet", 167772165⟩, ⟨pys "inet", 3232235783⟩])] }

/-- alice's container stopped out-of-band (status 102, still listed). -/
def cdAliceStoppedW : ContainerData := { cdAliceW with statusCode := 102 }

/-- bob's container: stopped, zero startup delay. -/
def cdBobW : ContainerData :=
  { statusCode := 102, config := [(pys "user.startup_delay", pys "0")], network := [] }

/-- Base state: alice running and tracked, bob initialized but stopped. -/
def stBase : MState :=
  { cfg := cfgW,
    containers := [(pys "alice-ws", cdAliceW), (pys "bob-ws", cdBobW)],
    runningContainers := [pys "alice-ws"],
    ipCache := [], forwardedPorts := [], customDomains := [], proxy := [],
    execSessions := [], consoleSessions := [], sysUsers := [], events := [] }

/-! ## C1 — eviction inside `start_container` -/

/-- **C1** (code bug, failing input): with `run_limit = 1` and
`running_containers = ['alice-ws']` where alice's container is still running,
the internal start of bob's container must — per the claim — stop alice, then
start bob and append it.  Instead the code pops `'alice-ws'` and then re-enters
`stop_container`, whose `running_containers.remove` raises `ValueError` because
the name was already popped: the call dies, alice is left running but
untracked, and bob is neither started nor appended. -/
theorem C1_code_bug :
    (start_container stBase (pys "bob-ws")).2 = .error .valueError
  ∧ (start_container stBase (pys "bob-ws")).1.runningContainers = []
  ∧ (dictGet? (start_container stBase (pys "bob-ws")).1.containers (pys "alice-ws")).any
      (fun cd => cd.statusCode == 103) = true
  ∧ (dictGet? (start_container stBase (pys "bob-ws")).1.containers (pys "bob-ws")).any
      (fun cd => cd.statusCode == 103) = false := by
  refine ⟨?_, ?_, ?_, ?_⟩ <;> decide

/-! ## C6 — `get_container_ip` address scan -/

/-- **C6** (code bug, failing input): alice's container is running with no
cached entry and `eth0` present; its `inet` addresses are 10.0.0.5 (inside
10.0.0.0/24) followed by 192.168.1.7 (outside).  The claim says the first
in-subnet address, `'10.0.0.5'`, is returned and cached.  The scan loop has no
`break`: it caches `'10.0.0.5'` but keeps iterating, so the loop variable ends
as the bare `IPv4Address` 192.168.1.7 — an address outside the subnet — and
that is what the call returns. -/
theorem C6_code_bug :
    (get_container_ip stBase (pys "alice-ws")).2 = .ok (.ipobj 3232235783)
  ∧ (get_container_ip stBase (pys "alice-ws")).1.ipCache = [(pys "alice-ws", 167772165)]
  ∧ inCidr cfgW 3232235783 = false
  ∧ inCidr cfgW 167772165 = true := by
  refine ⟨?_, ?_, ?_, ?_⟩ <;> decide

/-! ## C9 — `exec_close` -/

/-- State for C9: alice's container runs and alice holds one exec session
`sid1`; alice has no console session (the common case). -/
def stExecW : MState :=
  { stBase with execSessions := [(pys "alice", [(pys "sid1", ⟨pys "/run/exec-sid1"⟩)])] }

/-- **C9** (code bug, failing input): closing alice's exec session `sid1` does
signal SIGTERM and stop the tunnel, but the final deletion executes
`del self.console_sessions[user][sid]` — the *console* table — which raises
`KeyError` (alice has no console session); the claim requires `sid1` to be
gone from the exec-session table, yet that table is left untouched. -/
theorem C9_code_bug :
    (exec_close stExecW (pys "alice") (pys "sid1")).2 = .error .keyError
  ∧ (exec_close stExecW (pys "alice") (pys "sid1")).1.execSessions = stExecW.execSessions
  ∧ (dictGet? (exec_close stExecW (pys "alice") (pys "sid1")).1.execSessions (pys "alice")).any
      (fun s => dictMem s (pys "sid1")) = true
  ∧ (exec_close stExecW (pys "alice") (pys "sid1")).1.events =
      [.signalSent (pys "/run/exec-sid1") 15, .stopped (pys "/run/exec-sid1") true] := by
  refine ⟨?_, ?_, ?_, ?_⟩ <;> decide

/-! ## C2 — the random port allocation walk -/

/-- The exclusion walk never decreases its argument. -/
theorem walk_ge (l : List Int) (r : Int) : r ≤ walkExclusions l r := by
  induction l generalizing r with
  | nil => simp [walkExclusions]
  | cons p ps ih =>
      simp only [walkExclusions]
      split
      · exact le_refl r
      · exact le_trans (by omega) (ih (r + 1))

/-- The exclusion walk adds at most one per excluded port. -/
theorem walk_le (l : List Int) (r : Int) : walkExclusions l r ≤ r + l.length := by
  induction l generalizing r with
  | nil => simp [walkExclusions]
  | cons p ps ih =>
      simp only [walkExclusions]
      split
      · simp only [List.length_cons]
        push_cast
        omega
      · refine le_trans (ih (r + 1)) ?_
        simp only [List.length_cons]
        push_cast
        omega

/-- The exclusion walk is strictly monotone in the drawn value. -/
theorem walk_strictMono (l : List Int) {r s : Int} (h : r < s) :
    walkExclusions l r < walkExclusions l s := by
  induction l generalizing r s with
  | nil => simpa [walkExclusions]
  | cons p ps ih =>
      simp only [walkExclusions]
      by_cases hr : r < p
      · by_cases hs : s < p
        · rw [if_pos hr, if_pos hs]; exact h
        · rw [if_pos hr, if_neg hs]
          have := walk_ge ps (s + 1)
          omega
      · by_cases hs : s < p
        · exact absurd hs (by omega)
        · rw [if_neg hr, if_neg hs]
          exact ih (by omega)

/-- On a strictly sorted exclusion list the walk lands outside the list. -/
theorem walk_not_mem (l : List Int) (hl : l.Sorted (· < ·)) (r : Int) :
    walkExclusions l r ∉ l := by
  induction l generalizing r with
  | nil => simp [walkExclusions]
  | cons p ps ih =>
      rw [List.sorted_cons] at hl
      obtain ⟨hp, hps⟩ := hl
      simp only [walkExclusions]
      by_cases hr : r < p
      · rw [if_pos hr]
        simp only [List.mem_cons, not_or]
        refine ⟨by omega, fun hmem => ?_⟩
        have := hp _ hmem
        omega
      · rw [if_neg hr]
        simp only [List.mem_cons, not_or]
        have h1 := walk_ge ps (r + 1)
        exact ⟨by omega, ih hps (r + 1)⟩

/-- **C2 (amended)**: over the *inclusive* configured range
`[portsStart, portsEnd]`, with the forwarded set inside that range:
the call raises the "all ports have been allocated" error exactly when
`k + portsStart = portsEnd` (`k` the number of forwarded ports); otherwise,
when `k + portsStart < portsEnd`, every draw `r` that
`random.randrange(start, end - k + 1)` can produce yields `ok` on the walk of
`r` through the sorted exclusions — a port in `[portsStart, portsEnd]` and not
forwarded — and the walk is a bijection from the draw interval
`[portsStart, portsEnd - k]` onto the unallocated ports, so a uniform draw
gives a uniform unallocated port. -/
theorem C2_amended (cfg : Config) (fp : List Int)
    (hnd : fp.Nodup)
    (hsub : ∀ p ∈ fp, cfg.portsStart ≤ p ∧ p ≤ cfg.portsEnd) :
    (∀ r, next_random_port cfg fp r
          = .error (.webspace (pys "all ports have been allocated"))
        ↔ (fp.length : Int) + cfg.portsStart = cfg.portsEnd)
  ∧ ((fp.length : Int) + cfg.portsStart < cfg.portsEnd →
      (∀ r ∈ Finset.Icc cfg.portsStart (cfg.portsEnd - fp.length),
          next_random_port cfg fp r = .ok (walkExclusions (fp.insertionSort (· ≤ ·)) r)
        ∧ walkExclusions (fp.insertionSort (· ≤ ·)) r ∈ Finset.Icc cfg.portsStart cfg.portsEnd
        ∧ walkExclusions (fp.insertionSort (· ≤ ·)) r ∉ fp)
    ∧ Finset.image (fun r => walkExclusions (fp.insertionSort (· ≤ ·)) r)
        (Finset.Icc cfg.portsStart (cfg.portsEnd - fp.length))
      = Finset.Icc cfg.portsStart cfg.portsEnd \ fp.toFinset
    ∧ (∀ r ∈ Finset.Icc cfg.portsStart (cfg.portsEnd - fp.length),
       ∀ s ∈ Finset.Icc cfg.portsStart (cfg.portsEnd - fp.length),
         walkExclusions (fp.insertionSort (· ≤ ·)) r
           = walkExclusions (fp.insertionSort (· ≤ ·)) s → r = s)) := by
  have hlen : (fp.insertionSort (· ≤ ·)).length = fp.length :=
    List.length_insertionSort (· ≤ ·) fp
  have hsortlt : (fp.insertionSort (· ≤ ·)).Sorted (· < ·) :=
    List.Sorted.lt_of_le (List.sorted_insertionSort (· ≤ ·) fp)
      ((List.perm_insertionSort (· ≤ ·) fp).nodup_iff.mpr hnd)
  constructor
  · intro r
    simp only [next_random_port, hlen]
    constructor
    · intro h
      by_cases h1 : (fp.length : Int) + cfg.portsStart = cfg.portsEnd
      · exact h1
      · rw [if_neg h1] at h
        split at h <;> simp_all
    · intro h11
      rw [if_pos h11]
  · intro hlt
    have hok : ∀ r ∈ Finset.Icc cfg.portsStart (cfg.portsEnd - (fp.length : Int)),
        next_random_port cfg fp r = .ok (walkExclusions (fp.insertionSort (· ≤ ·)) r) := by
      intro r hr
      rw [Finset.mem_Icc] at hr
      simp only [next_random_port, hlen]
      rw [if_neg (by omega), if_neg (by omega)]
    have hmaps : ∀ r ∈ Finset.Icc cfg.portsStart (cfg.portsEnd - (fp.length : Int)),
        walkExclusions (fp.insertionSort (· ≤ ·)) r ∈ Finset.Icc cfg.portsStart cfg.portsEnd
      ∧ walkExclusions (fp.insertionSort (· ≤ ·)) r ∉ fp := by
      intro r hr
      rw [Finset.mem_Icc] at hr
      have h1 := walk_ge (fp.insertionSort (· ≤ ·)) r
      have h2 := walk_le (fp.insertionSort (· ≤ ·)) r
      rw [hlen] at h2
      have h3 := walk_not_mem (fp.insertionSort (· ≤ ·)) hsortlt r
      rw [List.mem_insertionSort] at h3
      exact ⟨Finset.mem_Icc.mpr ⟨by omega, by omega⟩, h3⟩
    have hinj : ∀ r ∈ Finset.Icc cfg.portsStart (cfg.portsEnd - (fp.length : Int)),
        ∀ s ∈ Finset.Icc cfg.portsStart (cfg.portsEnd - (fp.length : Int)),
          walkExclusions (fp.insertionSort (· ≤ ·)) r
            = walkExclusions (fp.insertionSort (· ≤ ·)) s → r = s := by
      intro r _ s _ heq
      rcases lt_trichotomy r s with h | h | h
      · exact absurd heq (ne_of_lt (walk_strictMono _ h))
      · exact h
      · exact absurd heq.symm (ne_of_lt (walk_strictMono _ h))
    refine ⟨fun r hr => ⟨hok r hr, hmaps r hr⟩, ?_, hinj⟩
    have htf : fp.toFinset ⊆ Finset.Icc cfg.portsStart cfg.portsEnd := by
      intro x hx
      rw [List.mem_toFinset] at hx
      exact Finset.mem_Icc.mpr ⟨(hsub x hx).1, (hsub x hx).2⟩
    have hsubimg : Finset.image (fun r => walkExclusions (fp.insertionSort (· ≤ ·)) r)
        (Finset.Icc cfg.portsStart (cfg.portsEnd - fp.length))
        ⊆ Finset.Icc cfg.portsStart cfg.portsEnd \ fp.toFinset := by
      intro x hx
      rw [Finset.mem_image] at hx
      obtain ⟨r, hr, rfl⟩ := hx
      rw [Finset.mem_sdiff, List.mem_toFinset]
      exact (hmaps r hr).imp id (fun h => h)
    have hcardimg : (Finset.image (fun r => walkExclusions (fp.insertionSort (· ≤ ·)) r)
        (Finset.Icc cfg.portsStart (cfg.portsEnd - (fp.length : Int)))).card
        = (Finset.Icc cfg.portsStart (cfg.portsEnd - (fp.length : Int))).card :=
      Finset.card_image_of_injOn (fun r hr s hs h => hinj r hr s hs h)
    have hcards : (Finset.Icc cfg.portsStart (cfg.portsEnd - (fp.length : Int))).card
        = (Finset.Icc cfg.portsStart cfg.portsEnd \ fp.toFinset).card := by
      rw [Finset.card_sdiff htf, List.toFinset_card_of_nodup hnd]
      rw [Int.card_Icc, Int.card_Icc]
      have hcardle := Finset.card_le_card htf
      rw [Int.card_Icc, List.toFinset_card_of_nodup hnd] at hcardle
      omega
    exact Finset.eq_of_subset_of_card_le hsubimg (by omega)

/-- **C2 counterexample**: with range start 1, end 2 and no forwarded ports the
claim reads the range as `[start, end) = {1}` and the draw as uniform on
`[start, end - k) = {1}`; but `randrange(start, end - k + 1) = randrange(1, 3)`
can draw `2`, and the call then returns port `2` — outside the claimed
half-open range (the code's own `check_valid_port` accepts `2 = end`: the
range is in fact inclusive). -/
theorem C2_counterexample :
    next_random_port cfgW [] 2 = .ok 2
  ∧ (cfgW.portsStart ≤ 2 ∧ (2 : Int) < cfgW.portsEnd - 0 + 1)
  ∧ ¬ (2 : Int) < cfgW.portsEnd
  ∧ check_valid_port cfgW 2 = .ok () := by
  refine ⟨?_, ⟨?_, ?_⟩, ?_, ?_⟩ <;> decide

/-- Witness for `C2_amended` at range 10–13 with port 11 forwarded. -/
theorem C2_witness :
    ((List.Nodup [(11 : Int)]) ∧ (∀ p ∈ [(11 : Int)], cfgWPorts.portsStart ≤ p ∧ p ≤ cfgWPorts.portsEnd))
  ∧ ((∀ r, next_random_port cfgWPorts [11] r
          = .error (.webspace (pys "all ports have been allocated"))
        ↔ (([(11 : Int)].length : Int) + cfgWPorts.portsStart = cfgWPorts.portsEnd))
    ∧ ((([(11 : Int)].length : Int) + cfgWPorts.portsStart < cfgWPorts.portsEnd →
      (∀ r ∈ Finset.Icc cfgWPorts.portsStart (cfgWPorts.portsEnd - [(11 : Int)].length),
          next_random_port cfgWPorts [11] r
            = .ok (walkExclusions ([(11 : Int)].insertionSort (· ≤ ·)) r)
        ∧ walkExclusions ([(11 : Int)].insertionSort (· ≤ ·)) r
            ∈ Finset.Icc cfgWPorts.portsStart cfgWPorts.portsEnd
        ∧ walkExclusions ([(11 : Int)].insertionSort (· ≤ ·)) r ∉ [(11 : Int)])
    ∧ Finset.image (fun r => walkExclusions ([(11 : Int)].insertionSort (· ≤ ·)) r)
        (Finset.Icc cfgWPorts.portsStart (cfgWPorts.portsEnd - [(11 : Int)].length))
      = Finset.Icc cfgWPorts.portsStart cfgWPorts.portsEnd \ [(11 : Int)].toFinset
    ∧ (∀ r ∈ Finset.Icc cfgWPorts.portsStart (cfgWPorts.portsEnd - [(11 : Int)].length),
       ∀ s ∈ Finset.Icc cfgWPorts.portsStart (cfgWPorts.portsEnd - [(11 : Int)].length),
         walkExclusions ([(11 : Int)].insertionSort (· ≤ ·)) r
           = walkExclusions ([(11 : Int)].insertionSort (· ≤ ·)) s → r = s)))) :=
  ⟨⟨by decide, by decide⟩, C2_amended cfgWPorts [11] (by decide) (by decide)⟩

/-! ## C3 — `set_option` / `unset_option` error handling -/

/-- **C3**: if the reserved validator raises on `value` (every validator
failure is a `ValueError`), `set_option` fails and returns the state
unchanged — the write and save are never reached; and `unset_option` on any
private or reserved key fails with a `WebspaceError` and changes nothing. -/
theorem C3_theorem (st : MState) (user key value : PyStr)
    (hfail : validate_reserved st.cfg key value = .error .valueError) :
    (∃ e, setOption st user key value = (st, .error e))
  ∧ (∀ k, k ∈ private_options ∨ (reservedValidator st.cfg k).isSome = true →
      ∃ m, unsetOption st user k = (st, .error (.webspace m))) := by
  constructor
  · simp only [setOption]
    cases hcd : dictGet? st.containers (user_container st.cfg user) with
    | none => exact ⟨.webspace notInitMsg, rfl⟩
    | some cd =>
        dsimp only
        by_cases hpriv : key ∈ private_options
        · rw [if_pos hpriv]
          exact ⟨_, rfl⟩
        · rw [if_neg hpriv, hfail]
          exact ⟨.valueError, rfl⟩
  · intro k hk
    simp only [unsetOption]
    cases hcd : dictGet? st.containers (user_container st.cfg user) with
    | none => exact ⟨notInitMsg, rfl⟩
    | some cd =>
        dsimp only
        rw [if_pos]
        · exact ⟨_, rfl⟩
        · rcases hk with h | h
          · exact Or.inl h
          · exact Or.inr (Option.isSome_iff_exists.mp h |>.elim (fun f hf => by rw [hf]; exact rfl) )

/-- Witness for `C3_theorem`: `http_port` is reserved and its validator rejects
`'99999'` (outside 1–65535). -/
theorem C3_witness :
    validate_reserved stBase.cfg (pys "http_port") (pys "99999") = .error .valueError
  ∧ ((∃ e, setOption stBase (pys "alice") (pys "http_port") (pys "99999") = (stBase, .error e))
    ∧ (∀ k, k ∈ private_options ∨ (reservedValidator stBase.cfg k).isSome = true →
        ∃ m, unsetOption stBase (pys "alice") k = (stBase, .error (.webspace m)))) :=
  ⟨by decide, C3_theorem stBase (pys "alice") (pys "http_port") (pys "99999") (by decide)⟩

/-! ## C4 — comma-codec and dictionary lemmas -/

/-- `splitComma` always yields at least one field. -/
theorem splitComma_ne_nil (s : List Char) : splitComma s ≠ [] := by
  cases s with
  | nil => simp [splitComma]
  | cons c rest =>
      simp only [splitComma]
      cases h : splitComma rest with
      | nil => simp
      | cons a as => by_cases hc : c = ',' <;> simp [hc]

/-- No field produced by `splitComma` contains a comma. -/
theorem splitComma_no_comma (s : List Char) (x : List Char) (hx : x ∈ splitComma s) :
    ',' ∉ x := by
  induction s generalizing x with
  | nil => simp [splitComma] at hx; simp [hx]
  | cons c rest ih =>
      simp only [splitComma] at hx
      cases h : splitComma rest with
      | nil => exact absurd h (splitComma_ne_nil rest)
      | cons a as =>
          rw [h] at hx
          dsimp only at hx
          by_cases hc : c = ','
          · rw [if_pos hc] at hx
            rcases List.mem_cons.mp hx with h1 | h1
            · simp [h1]
            · exact ih x (by rw [h]; exact h1)
          · rw [if_neg hc] at hx
            rcases List.mem_cons.mp hx with h1 | h1
            · subst h1
              intro hmem
              rcases List.mem_cons.mp hmem with h2 | h2
              · exact hc h2.symm
              · exact ih a (by rw [h]; exact List.mem_cons_self a as) h2
            · exact ih x (by rw [h]; exact List.mem_cons.mpr (Or.inr h1))

/-- A comma-free string splits to itself. -/
theorem splitComma_eq_self (d : List Char) (hd : ',' ∉ d) : splitComma d = [d] := by
  induction d with
  | nil => simp [splitComma]
  | cons c rest ih =>
      simp only [splitComma]
      rw [ih (fun h => hd (List.mem_cons.mpr (Or.inr h)))]
      dsimp only
      rw [if_neg (fun h : c = ',' => hd (List.mem_cons.mpr (Or.inl h.symm)))]

/-- Splitting after a comma-free head: the head comes off as one field. -/
theorem splitComma_append (d s : List Char) (hd : ',' ∉ d) :
    splitComma (d ++ ',' :: s) = d :: splitComma s := by
  induction d with
  | nil =>
      show splitComma (',' :: s) = [] :: splitComma s
      simp only [splitComma]
      cases h : splitComma s with
      | nil => exact absurd h (splitComma_ne_nil s)
      | cons a as => simp
  | cons c rest ih =>
      show splitComma (c :: (rest ++ ',' :: s)) = (c :: rest) :: splitComma s
      simp only [splitComma]
      rw [ih (fun h => hd (List.mem_cons.mpr (Or.inr h)))]
      dsimp only
      rw [if_neg (fun h : c = ',' => hd (List.mem_cons.mpr (Or.inl h.symm)))]

/-- Round trip: joining well-formed fields and splitting recovers them. -/
theorem filter_splitComma_joinComma (l : List (List Char))
    (hl : ∀ d ∈ l, d ≠ [] ∧ ',' ∉ d) :
    (splitComma (joinComma l)).filter (fun d => d ≠ []) = l := by
  induction l with
  | nil => simp [joinComma, splitComma]
  | cons d rest ih =>
      cases rest with
      | nil =>
          have hd := hl d (List.mem_cons_self d [])
          simp only [joinComma]
          rw [splitComma_eq_self d hd.2]
          simp [hd.1]
      | cons d2 rest2 =>
          have hd := hl d (List.mem_cons_self d (d2 :: rest2))
          have hrest : ∀ x ∈ d2 :: rest2, x ≠ [] ∧ ',' ∉ x :=
            fun x hx => hl x (List.mem_cons.mpr (Or.inr hx))
          show (splitComma (d ++ ',' :: joinComma (d2 :: rest2))).filter (fun x => x ≠ []) = _
          rw [splitComma_append d _ hd.2]
          simp only [List.filter_cons]
          rw [if_pos (by simpa using hd.1)]
          rw [ih hrest]

/-- Inserting then looking up the same key. -/
theorem dictGet?_insert_self {κ α : Type} [DecidableEq κ] (d : List (κ × α)) (k : κ) (v : α) :
    dictGet? (dictInsert d k v) k = some v := by
  induction d with
  | nil => simp [dictInsert, dictGet?]
  | cons kv rest ih =>
      obtain ⟨k', v'⟩ := kv
      simp only [dictInsert]
      by_cases h : k' = k
      · rw [if_pos h]; simp [dictGet?]
      · rw [if_neg h]; simp only [dictGet?, if_neg h]; exact ih

/-- Erasing a freshly inserted key restores the dictionary. -/
theorem dictErase_insert {κ α : Type} [DecidableEq κ] (d : List (κ × α)) (k : κ) (v : α)
    (h : dictGet? d k = none) : dictErase (dictInsert d k v) k = d := by
  induction d with
  | nil => simp [dictInsert, dictErase]
  | cons kv rest ih =>
      obtain ⟨k', v'⟩ := kv
      simp only [dictGet?] at h
      by_cases hk : k' = k
      · rw [if_pos hk] at h; exact absurd h (by simp)
      · rw [if_neg hk] at h
        simp only [dictInsert, if_neg hk, dictErase]
        rw [ih h]

/-- Removing a freshly appended element recovers the original list. -/
theorem listRemove_append_self {α : Type} [DecidableEq α] (l : List α) (a : α) (h : a ∉ l) :
    listRemove (l ++ [a]) a = .ok l := by
  induction l with
  | nil => simp [listRemove]
  | cons x rest ih =>
      show listRemove (x :: (rest ++ [a])) a = Except.ok (x :: rest)
      simp only [listRemove]
      rw [if_neg (fun hx : x = a => h (List.mem_cons.mpr (Or.inl hx.symm)))]
      rw [ih (fun hx => h (List.mem_cons.mpr (Or.inr hx)))]

/-- Reading the domain list back after writing a new `user._domains` value. -/
theorem get_container_domains_insert (cd : ContainerData) (v : PyStr) :
    get_container_domains { cd with config := dictInsert cd.config (pys "user._domains") v }
      = (splitComma v).filter (fun d => d ≠ []) := by
  simp [get_container_domains, dictGetD, dictGet?_insert_self]

/-- Every stored domain list entry is non-empty and comma-free. -/
theorem get_container_domains_wf (cd : ContainerData) :
    ∀ d ∈ get_container_domains cd, d ≠ [] ∧ ',' ∉ d := by
  intro d hd
  unfold get_container_domains at hd
  constructor
  · simpa using (List.mem_filter.mp hd).2
  · exact splitComma_no_comma _ _ (List.mem_filter.mp hd).1


/-- **C4**: from a state whose registry is consistent (the domain is neither in
the global map nor on the container's stored list) where DNS verification
succeeds and the domain is a well-formed name (non-empty, comma-free),
`add_domain` then `remove_domain` restores the global custom-domain map and
the container's stored domain list; and `add_domain` on an already-claimed
domain always fails with the "already configured" error, whoever the claimant
is, leaving the state untouched. -/
theorem C4_theorem (dns : PyStr → List PyStr) (st : MState) (user domain : PyStr)
    (cd : ContainerData)
    (hcd : dictGet? st.containers (user_container st.cfg user) = some cd) :
    (dictGet? st.customDomains domain = none →
     (dns domain).any (fun txt => txt = pys "webspace:" ++ user) = true →
     domain ∉ get_container_domains cd →
     domain ≠ [] → ',' ∉ domain →
       (add_domain dns st user domain).2 = .ok ()
     ∧ (remove_domain (add_domain dns st user domain).1 user domain).2 = .ok ()
     ∧ (remove_domain (add_domain dns st user domain).1 user domain).1.customDomains
         = st.customDomains
     ∧ (∃ cd2, dictGet? (remove_domain (add_domain dns st user domain).1 user domain).1.containers
                 (user_container st.cfg user) = some cd2
             ∧ get_container_domains cd2 = get_container_domains cd))
  ∧ (∀ owner, dictGet? st.customDomains domain = some owner →
      add_domain dns st user domain
        = (st, .error (.webspace (pys "has already been configured as a custom domain")))) := by
  constructor
  · intro hnone hver hnm hne0 hcm
    have hmem : dictMem st.customDomains domain = false := by simp [dictMem, hnone]
    have hwfa : ∀ d ∈ get_container_domains cd ++ [domain], d ≠ [] ∧ ',' ∉ d := by
      intro d hd
      rcases List.mem_append.mp hd with h | h
      · exact get_container_domains_wf cd d h
      · rw [List.mem_singleton] at h; subst h; exact ⟨hne0, hcm⟩
    have hround : (splitComma (joinComma (get_container_domains cd ++ [domain]))).filter
        (fun d => d ≠ []) = get_container_domains cd ++ [domain] :=
      filter_splitComma_joinComma _ hwfa
    have hround2 : (splitComma (joinComma (get_container_domains cd))).filter
        (fun d => d ≠ []) = get_container_domains cd :=
      filter_splitComma_joinComma _ (get_container_domains_wf cd)
    have hrm : listRemove (get_container_domains cd ++ [domain]) domain
        = .ok (get_container_domains cd) := listRemove_append_self _ _ hnm
    have herase : dictErase (dictInsert st.customDomains domain user) domain = st.customDomains :=
      dictErase_insert _ _ _ hnone
    simp only [add_domain, hcd, hmem, hver, hnone, Bool.false_eq_true, if_false, not_true,
      Bool.not_eq_true, set_container_domains, remove_domain, dictGet?_insert_self,
      get_container_domains_insert, hround, hround2, hrm, herase, dictMem, Option.isSome_some,
      Option.isSome_none, not_false_eq_true, if_true, if_pos]
    refine ⟨trivial, trivial, trivial, _, rfl, ?_⟩
    simp only [get_container_domains, dictGetD, dictGet?_insert_self, Option.getD_some]
    exact hround2
  · intro owner howner
    simp [add_domain, hcd, dictMem, howner]

/-- alice's container with one custom domain `old.com` on record. -/
def cdDomW : ContainerData :=
  { statusCode := 103,
    config := [(pys "user.startup_delay", pys "0"), (pys "user._domains", pys "old.com")],
    network := [] }

/-- Registry state for the C4 witness: `old.com` is claimed by alice. -/
def stDomW : MState :=
  { stBase with containers := [(pys "alice-ws", cdDomW)],
                customDomains := [(pys "old.com", pys "alice")] }

/-- DNS world for the C4 witness: `new.com` carries alice's TXT proof. -/
def dnsW : PyStr → List PyStr :=
  fun d => if d = pys "new.com" then [pys "webspace:alice"] else []

/-- Witness for `C4_theorem`: alice round-trips `new.com` while `old.com`
stays claimed. -/
theorem C4_witness :
    dictGet? stDomW.containers (user_container stDomW.cfg (pys "alice")) = some cdDomW
  ∧ ((dictGet? stDomW.customDomains (pys "new.com") = none →
     (dnsW (pys "new.com")).any (fun txt => txt = pys "webspace:" ++ pys "alice") = true →
     pys "new.com" ∉ get_container_domains cdDomW →
     pys "new.com" ≠ [] → ',' ∉ pys "new.com" →
       (add_domain dnsW stDomW (pys "alice") (pys "new.com")).2 = .ok ()
     ∧ (remove_domain (add_domain dnsW stDomW (pys "alice") (pys "new.com")).1
          (pys "alice") (pys "new.com")).2 = .ok ()
     ∧ (remove_domain (add_domain dnsW stDomW (pys "alice") (pys "new.com")).1
          (pys "alice") (pys "new.com")).1.customDomains = stDomW.customDomains
     ∧ (∃ cd2, dictGet? (remove_domain (add_domain dnsW stDomW (pys "alice") (pys "new.com")).1
                  (pys "alice") (pys "new.com")).1.containers
                  (user_container stDomW.cfg (pys "alice")) = some cd2
             ∧ get_container_domains cd2 = get_container_domains cdDomW))
    ∧ (∀ owner, dictGet? stDomW.customDomains (pys "new.com") = some owner →
        add_domain dnsW stDomW (pys "alice") (pys "new.com")
          = (stDomW, .error (.webspace (pys "has already been configured as a custom domain"))))) :=
  ⟨by decide, C4_theorem dnsW stDomW (pys "alice") (pys "new.com") cdDomW (by decide)⟩

/-! ## C5 — host resolution in `boot_and_host` -/

/-- A character that occurs in the list is found at a non-negative index. -/
theorem pyFind_nonneg (s : List Char) (c : Char) (h : c ∈ s) : 0 ≤ pyFind s c := by
  induction s with
  | nil => simp at h
  | cons x rest ih =>
      simp only [pyFind]
      by_cases hx : x = c
      · rw [if_pos hx]
      · rw [if_neg hx]
        have hmem : c ∈ rest := by
          rcases List.mem_cons.mp h with h1 | h1
          · exact absurd h1.symm hx
          · exact h1
        have := ih hmem
        split <;> omega

/-- On hosts that contain a dot, the code's wildcard form agrees with the
spec's first-label replacement. -/
theorem wildcard_host_eq_spec (host : PyStr) (h : '.' ∈ host) :
    wildcard_host host = wildcard_form_spec host := by
  simp only [wildcard_host, wildcard_form_spec, List.cons.injEq, true_and]
  induction host with
  | nil => simp at h
  | cons c rest ih =>
      by_cases hc : c = '.'
      · subst hc
        simp [pyFind, pySliceFrom, List.dropWhile]
      · have hmem : '.' ∈ rest := by
          rcases List.mem_cons.mp h with h1 | h1
          · exact absurd h1.symm hc
          · exact h1
        have hnn := pyFind_nonneg rest '.' hmem
        simp only [pyFind, if_neg hc]
        rw [if_neg (by omega)]
        have hslice : pySliceFrom (c :: rest) (pyFind rest '.' + 1)
            = pySliceFrom rest (pyFind rest '.') := by
          simp only [pySliceFrom]
          rw [if_neg (by omega), if_neg (by omega)]
          have : (pyFind rest '.' + 1).toNat = (pyFind rest '.').toNat + 1 := by omega
          rw [this]
          simp [List.drop]
        rw [hslice, ih hmem]
        simp [List.dropWhile, hc]

/-- **C5 (amended)**: `boot_and_host` resolves in the order: exact match in the
global custom-domain map; else its wildcard form — `'*'` plus the host from
its first `'.'` (for dotless hosts this degenerates to `'*'` plus the host's
last character, not the spec's first-label replacement; on hosts containing a
dot the two agree); else, if the host ends with the configured primary-domain
suffix, the remainder is the username, failing with reason `user` when no such
system user exists; else reason `not_webspace`.  A resolution failure is the
call's `(None, reason)` result; a resolved user determines the rest of the
call. -/
theorem C5_amended (st : MState) (host : PyStr) :
    (∀ u, dictGet? st.customDomains host = some u → resolve_user st host = .ok u)
  ∧ (dictGet? st.customDomains host = none →
      (∀ u, dictGet? st.customDomains (wildcard_host host) = some u →
          resolve_user st host = .ok u)
    ∧ (dictGet? st.customDomains (wildcard_host host) = none →
        (st.cfg.domainSuffix.isSuffixOf host = true →
            (pySliceTo host (-(st.cfg.domainSuffix.length : Int)) ∈ st.sysUsers →
               resolve_user st host
                 = .ok (pySliceTo host (-(st.cfg.domainSuffix.length : Int))))
          ∧ (pySliceTo host (-(st.cfg.domainSuffix.length : Int)) ∉ st.sysUsers →
               resolve_user st host = .error (pys "user")))
      ∧ (st.cfg.domainSuffix.isSuffixOf host = false →
           resolve_user st host = .error (pys "not_webspace"))))
  ∧ (∀ r, resolve_user st host = .error r →
       ∀ hint, boot_and_host st host hint = (st, .ok (.failed r)))
  ∧ (∀ u, resolve_user st host = .ok u →
       ∀ hint, boot_and_host st host hint = boot_and_host_resolved st u hint)
  ∧ ('.' ∈ host → wildcard_host host = wildcard_form_spec host) := by
  refine ⟨?_, ?_, ?_, ?_, wildcard_host_eq_spec host⟩
  · intro u hu
    simp [resolve_user, hu]
  · intro hnone
    constructor
    · intro u hu
      simp [resolve_user, hnone, hu]
    · intro hwc
      constructor
      · intro hsuf
        constructor
        · intro hmem
          simp [resolve_user, hnone, hwc, hsuf, hmem]
        · intro hmem
          simp [resolve_user, hnone, hwc, hsuf, hmem]
      · intro hsuf
        simp [resolve_user, hnone, hwc, hsuf]
  · intro r hr hint
    simp [boot_and_host, hr]
  · intro u hu hint
    simp [boot_and_host, hu]

/-- Registry state with the wildcard-looking entry `*a` claimed by mallory. -/
def stWcW : MState := { stBase with customDomains := [(pys "*a", pys "mallory")] }

/-- **C5 counterexample**: for the dotless host `a`, the spec's wildcard form
is `*`, which is not in the map, and `a` does not end with the configured
suffix, so the claim requires the typed failure `not_webspace`; the code
instead computes the wildcard form `'*' + host[-1:] = '*a'`, finds it in the
map, and resolves to `mallory`. -/
theorem C5_counterexample :
    wildcard_form_spec (pys "a") = pys "*"
  ∧ dictGet? stWcW.customDomains (pys "*") = none
  ∧ dictGet? stWcW.customDomains (pys "a") = none
  ∧ stWcW.cfg.domainSuffix.isSuffixOf (pys "a") = false
  ∧ wildcard_host (pys "a") = pys "*a"
  ∧ resolve_user stWcW (pys "a") = .ok (pys "mallory") := by
  refine ⟨?_, ?_, ?_, ?_, ?_, ?_⟩ <;> decide

/-- Registry state from the spec's end-to-end example: `*.custom.com`
registered to carol. -/
def stCarolW : MState :=
  { stBase with customDomains := [(pys "*.custom.com", pys "carol")] }

/-- Witness for `C5_amended`: `api.custom.com` has no exact entry but its
wildcard form `*.custom.com` is carol's, so the host resolves to carol. -/
theorem C5_witness :
    dictGet? stCarolW.customDomains (pys "api.custom.com") = none
  ∧ resolve_user stCarolW (pys "api.custom.com") = .ok (pys "carol") :=
  ⟨by decide,
    ((C5_amended stCarolW (pys "api.custom.com")).2.1 (by decide)).1 (pys "carol") (by decide)⟩

/-! ## C10 — `delete` releases ports and keeps the domain registry -/

/-- `list.remove` on a present element returns the list with its first
occurrence erased. -/
theorem listRemove_eq_ok_erase {α : Type} [DecidableEq α] (l : List α) (a : α) (h : a ∈ l) :
    listRemove l a = .ok (l.erase a) := by
  induction l with
  | nil => simp at h
  | cons x rest ih =>
      simp only [listRemove]
      by_cases hx : x = a
      · rw [if_pos hx]
        subst hx
        rw [List.erase_cons_head]
      · rw [if_neg hx]
        have hmem : a ∈ rest := by
          rcases List.mem_cons.mp h with h1 | h1
          · exact absurd h1.symm hx
          · exact h1
        rw [ih hmem, List.erase_cons_tail]
        simp [hx]

/-- The port-release loop of `delete`: on a duplicate-free list of ports all
held in the (duplicate-free) forwarded set, it succeeds, removes exactly those
ports from the forwarded set and the proxy table, and touches nothing else. -/
theorem release_ports_spec (st : MState) (l : List Int)
    (hsub : ∀ e ∈ l, e ∈ st.forwardedPorts) (hnd : l.Nodup)
    (hfp : st.forwardedPorts.Nodup) :
    (release_ports st l).2 = .ok ()
  ∧ (∀ p, p ∈ (release_ports st l).1.forwardedPorts ↔ p ∈ st.forwardedPorts ∧ p ∉ l)
  ∧ (release_ports st l).1.proxy = st.proxy.filter (fun f => f.1 ∉ l)
  ∧ (release_ports st l).1.forwardedPorts.Nodup
  ∧ (release_ports st l).1.containers = st.containers
  ∧ (release_ports st l).1.customDomains = st.customDomains
  ∧ (release_ports st l).1.cfg = st.cfg := by
  induction l generalizing st with
  | nil =>
      refine ⟨rfl, fun p => by simp [release_ports], ?_, hfp, rfl, rfl, rfl⟩
      simp [release_ports, List.filter_eq_self]
  | cons e rest ih =>
      have he : e ∈ st.forwardedPorts := hsub e (List.mem_cons_self e rest)
      rw [List.nodup_cons] at hnd
      obtain ⟨hne, hndr⟩ := hnd
      simp only [release_ports, proxy_remove]
      rw [if_pos he]
      set st2 : MState := { st with
        proxy := st.proxy.filter (fun f => decide (f.1 ≠ e)),
        forwardedPorts := st.forwardedPorts.erase e } with hst2
      have hsub2 : ∀ x ∈ rest, x ∈ st2.forwardedPorts := by
        intro x hx
        have hxe : x ≠ e := fun h => hne (h ▸ hx)
        exact (List.Nodup.mem_erase_iff hfp).mpr ⟨hxe, hsub x (List.mem_cons.mpr (Or.inr hx))⟩
      have hfp2 : st2.forwardedPorts.Nodup := hfp.erase e
      obtain ⟨ih1, ih2, ih3, ih4, ih5, ih6, ih7⟩ := ih st2 hsub2 hndr hfp2
      refine ⟨ih1, ?_, ?_, ih4, ih5, ih6, ih7⟩
      · intro p
        rw [ih2 p]
        constructor
        · rintro ⟨hp, hnr⟩
          have := (List.Nodup.mem_erase_iff hfp).mp hp
          exact ⟨this.2, by simp [List.mem_cons, this.1, hnr]⟩
        · rintro ⟨hp, hnc⟩
          simp only [List.mem_cons, not_or] at hnc
          exact ⟨(List.Nodup.mem_erase_iff hfp).mpr ⟨hnc.1, hp⟩, hnc.2⟩
      · rw [ih3]
        show (st.proxy.filter (fun f => decide (f.1 ≠ e))).filter (fun f => decide (f.1 ∉ rest))
          = st.proxy.filter (fun f => decide (f.1 ∉ e :: rest))
        rw [List.filter_filter]
        refine List.filter_congr ?_
        intro f _
        by_cases h1 : f.1 = e <;> by_cases h2 : f.1 ∈ rest <;> simp [h1, h2]

/-- A key outside the stored keys is not found. -/
theorem dictGet?_eq_none {κ α : Type} [DecidableEq κ] (d : List (κ × α)) (k : κ)
    (h : k ∉ d.map Prod.fst) : dictGet? d k = none := by
  induction d with
  | nil => rfl
  | cons kv rest ih =>
      obtain ⟨k', v'⟩ := kv
      simp only [List.map_cons, List.mem_cons, not_or] at h
      simp only [dictGet?]
      rw [if_neg (fun hk => h.1 (by simp [hk]))]
      exact ih h.2

/-- The keys of a dictionary after an update. -/
theorem mem_keys_insert {κ α : Type} [DecidableEq κ] (d : List (κ × α)) (k : κ) (v : α)
    (a : κ) : a ∈ (dictInsert d k v).map Prod.fst ↔ a ∈ d.map Prod.fst ∨ a = k := by
  induction d with
  | nil => simp [dictInsert]
  | cons kv rest ih =>
      obtain ⟨k', v'⟩ := kv
      simp only [dictInsert]
      by_cases hk : k' = k
      · subst hk
        rw [if_pos rfl]
        simp only [List.map_cons, List.mem_cons]
        constructor
        · rintro (h | h)
          · exact Or.inr h
          · exact Or.inl (Or.inr h)
        · rintro ((h | h) | h)
          · exact Or.inl h
          · exact Or.inr h
          · exact Or.inl h
      · rw [if_neg hk]
        simp only [List.map_cons, List.mem_cons, ih]
        tauto

/-- `dictInsert` keeps the keys duplicate-free. -/
theorem keys_nodup_insert {κ α : Type} [DecidableEq κ] (d : List (κ × α)) (k : κ) (v : α)
    (h : (d.map Prod.fst).Nodup) : ((dictInsert d k v).map Prod.fst).Nodup := by
  induction d with
  | nil => simp [dictInsert]
  | cons kv rest ih =>
      obtain ⟨k', v'⟩ := kv
      simp only [List.map_cons, List.nodup_cons] at h
      simp only [dictInsert]
      by_cases hk : k' = k
      · subst hk
        rw [if_pos rfl]
        simp only [List.map_cons, List.nodup_cons]
        exact h
      · rw [if_neg hk]
        simp only [List.map_cons, List.nodup_cons]
        refine ⟨?_, ih h.2⟩
        rw [mem_keys_insert]
        push_neg
        exact ⟨h.1, hk⟩

/-- With duplicate-free keys, erasing a key makes it unfindable. -/
theorem dictGet?_erase_self {κ α : Type} [DecidableEq κ] (d : List (κ × α)) (k : κ)
    (h : (d.map Prod.fst).Nodup) : dictGet? (dictErase d k) k = none := by
  induction d with
  | nil => rfl
  | cons kv rest ih =>
      obtain ⟨k', v'⟩ := kv
      simp only [List.map_cons, List.nodup_cons] at h
      simp only [dictErase]
      by_cases hk : k' = k
      · rw [if_pos hk]
        subst hk
        exact dictGet?_eq_none rest k' h.1
      · rw [if_neg hk]
        simp only [dictGet?, if_neg hk]
        exact ih h.2

/-- **C10**: `delete` releases every persisted port forward of the container
from both the proxy table and the global forwarded-port set, removes the
container, and leaves the global custom-domain map untouched — so a later
`add_domain` for any still-claimed domain fails (either at the claimant's
`check_init` or at the already-claimed check) without changing state. -/
theorem C10_theorem (st : MState) (user : PyStr) (cd : ContainerData)
    (ports : List (Int × Int))
    (hcd : dictGet? st.containers (user_container st.cfg user) = some cd)
    (hports : get_container_ports cd = .ok ports)
    (hsub : ∀ e ∈ ports.map Prod.snd, e ∈ st.forwardedPorts)
    (hndp : (ports.map Prod.snd).Nodup)
    (hfp : st.forwardedPorts.Nodup)
    (hkeys : (st.containers.map Prod.fst).Nodup)
    (hrun : cd.statusCode = 103 → user_container st.cfg user ∈ st.runningContainers) :
    (delete st user).2 = .ok ()
  ∧ (∀ p, p ∈ (delete st user).1.forwardedPorts ↔
        p ∈ st.forwardedPorts ∧ p ∉ ports.map Prod.snd)
  ∧ (delete st user).1.proxy = st.proxy.filter (fun f => f.1 ∉ ports.map Prod.snd)
  ∧ (delete st user).1.customDomains = st.customDomains
  ∧ dictGet? (delete st user).1.containers (user_container st.cfg user) = none
  ∧ (∀ d owner, dictGet? st.customDomains d = some owner →
      ∀ u2 dns, (add_domain dns (delete st user).1 u2 d).1 = (delete st user).1
              ∧ ∃ m, (add_domain dns (delete st user).1 u2 d).2 = .error (.webspace m)) := by
  have main : (delete st user).2 = .ok ()
      ∧ (∀ p, p ∈ (delete st user).1.forwardedPorts ↔
            p ∈ st.forwardedPorts ∧ p ∉ ports.map Prod.snd)
      ∧ (delete st user).1.proxy = st.proxy.filter (fun f => f.1 ∉ ports.map Prod.snd)
      ∧ (delete st user).1.customDomains = st.customDomains
      ∧ dictGet? (delete st user).1.containers (user_container st.cfg user) = none := by
    simp only [delete, hcd]
    by_cases hstat : cd.statusCode = 103
    · rw [if_pos hstat]
      obtain ⟨lrem, hlrem⟩ : ∃ l', listRemove st.runningContainers (user_container st.cfg user)
          = .ok l' := ⟨_, listRemove_eq_ok_erase _ _ (hrun hstat)⟩
      simp only [stop_container, hlrem, hports]
      obtain ⟨r1, r2, r3, r4, r5, r6, r7⟩ :=
        release_ports_spec
          { st with ipCache := dictErase st.ipCache (user_container st.cfg user),
                    runningContainers := lrem,
                    containers := setStatus st.containers (user_container st.cfg user) 102 }
          (ports.map Prod.snd) hsub hndp hfp
      have hkeys1 : ((setStatus st.containers (user_container st.cfg user) 102).map
          Prod.fst).Nodup := by
        simp only [setStatus]
        cases hg : dictGet? st.containers (user_container st.cfg user) with
        | none => exact hkeys
        | some cdx => exact keys_nodup_insert _ _ _ hkeys
      have p5 : dictGet? (dictErase (release_ports
          { st with ipCache := dictErase st.ipCache (user_container st.cfg user),
                    runningContainers := lrem,
                    containers := setStatus st.containers (user_container st.cfg user) 102 }
          (ports.map Prod.snd)).1.containers (user_container st.cfg user))
          (user_container st.cfg user) = none := by
        rw [r5]
        exact dictGet?_erase_self _ _ hkeys1
      split
      · exact absurd (r1.symm.trans (by assumption)) (by simp)
      · exact ⟨rfl, r2, r3, r6, p5⟩
    · rw [if_neg hstat]
      simp only [hports]
      obtain ⟨r1, r2, r3, r4, r5, r6, r7⟩ :=
        release_ports_spec st (ports.map Prod.snd) hsub hndp hfp
      have p5 : dictGet? (dictErase (release_ports st
          (ports.map Prod.snd)).1.containers (user_container st.cfg user))
          (user_container st.cfg user) = none := by
        rw [r5]
        exact dictGet?_erase_self _ _ hkeys
      split
      · exact absurd (r1.symm.trans (by assumption)) (by simp)
      · exact ⟨rfl, r2, r3, r6, p5⟩
  obtain ⟨m1, m2, m3, m4, m5⟩ := main
  refine ⟨m1, m2, m3, m4, m5, ?_⟩
  intro d owner hd u2 dns
  cases h3 : dictGet? (delete st user).1.containers (user_container (delete st user).1.cfg u2) with
  | none => simp [add_domain, h3]
  | some cdx =>
      have hmemd : dictMem (delete st user).1.customDomains d = true := by
        simp [dictMem, m4, hd]
      simp [add_domain, h3, hmemd]

/-- alice's container with two persisted port forwards. -/
def cdPortsW : ContainerData :=
  { statusCode := 103,
    config := [(pys "user.startup_delay", pys "0"), (pys "user._ports", pys "80:11,443:12")],
    network := [] }

/-- State for the C10 witness: both forwards live, one custom domain claimed. -/
def stDelW : MState :=
  { cfg := cfgWPorts,
    containers := [(pys "alice-ws", cdPortsW)],
    runningContainers := [pys "alice-ws"],
    ipCache := [], forwardedPorts := [11, 12],
    customDomains := [(pys "c.com", pys "alice")],
    proxy := [(11, pys "alice", 80), (12, pys "alice", 443)],
    execSessions := [], consoleSessions := [], sysUsers := [], events := [] }

/-- Witness for `C10_theorem` on `stDelW`. -/
theorem C10_witness :
    (dictGet? stDelW.containers (user_container stDelW.cfg (pys "alice")) = some cdPortsW
     ∧ get_container_ports cdPortsW = .ok [(80, 11), (443, 12)]
     ∧ stDelW.forwardedPorts.Nodup)
  ∧ ((delete stDelW (pys "alice")).2 = .ok ()
    ∧ (∀ p, p ∈ (delete stDelW (pys "alice")).1.forwardedPorts ↔
          p ∈ stDelW.forwardedPorts ∧ p ∉ [(80, (11 : Int)), (443, 12)].map Prod.snd)
    ∧ (delete stDelW (pys "alice")).1.proxy
        = stDelW.proxy.filter (fun f => f.1 ∉ [(80, (11 : Int)), (443, 12)].map Prod.snd)
    ∧ (delete stDelW (pys "alice")).1.customDomains = stDelW.customDomains
    ∧ dictGet? (delete stDelW (pys "alice")).1.containers
        (user_container stDelW.cfg (pys "alice")) = none
    ∧ (∀ d owner, dictGet? stDelW.customDomains d = some owner →
        ∀ u2 dns, (add_domain dns (delete stDelW (pys "alice")).1 u2 d).1
                    = (delete stDelW (pys "alice")).1
                ∧ ∃ m, (add_domain dns (delete stDelW (pys "alice")).1 u2 d).2
                    = .error (.webspace m))) :=
  ⟨⟨by decide, by decide, by decide⟩,
   C10_theorem stDelW (pys "alice") cdPortsW [(80, 11), (443, 12)]
     (by decide) (by decide) (by decide) (by decide) (by decide) (by decide) (by decide)⟩

/-! ## C7 — `add_port` -/

/-- **C7**: with the internal port number valid, `add_port` fails (with a
`WebspaceError`, leaving the state untouched) when the internal port is
already forwarded for this container, when the container is at its
per-container port-count limit, when the external port is neither `0` nor
inside the configured range, and when it is already globally forwarded;
otherwise it succeeds — for an explicit external port the call adds it to the
global forwarded set, registers the proxy mapping, persists the updated
`internal:external` list and returns it; for `0`, when the range is not
exhausted, it does the same with a freshly drawn port that is inside the
range and not yet forwarded. -/
theorem C7_theorem (st : MState) (user : PyStr) (iport eport r : Int)
    (cd : ContainerData) (existing : List (Int × Int))
    (hcd : dictGet? st.containers (user_container st.cfg user) = some cd)
    (hex : get_container_ports cd = .ok existing)
    (hip1 : 0 < iport) (hip2 : iport ≤ 65535) :
    (dictMem existing iport = true →
       ∃ m, add_port st user iport eport r = (st, .error (.webspace m)))
  ∧ (dictMem existing iport = false → existing.length = st.cfg.portsMax →
       ∃ m, add_port st user iport eport r = (st, .error (.webspace m)))
  ∧ (dictMem existing iport = false → existing.length ≠ st.cfg.portsMax →
       ((eport ≠ 0 ∧ eport < st.cfg.portsStart) ∨ eport > st.cfg.portsEnd) →
       ∃ m, add_port st user iport eport r = (st, .error (.webspace m)))
  ∧ (dictMem existing iport = false → existing.length ≠ st.cfg.portsMax →
       ¬((eport ≠ 0 ∧ eport < st.cfg.portsStart) ∨ eport > st.cfg.portsEnd) →
       eport ∈ st.forwardedPorts →
       ∃ m, add_port st user iport eport r = (st, .error (.webspace m)))
  ∧ (dictMem existing iport = false → existing.length ≠ st.cfg.portsMax →
       eport ≠ 0 → st.cfg.portsStart ≤ eport → eport ≤ st.cfg.portsEnd →
       eport ∉ st.forwardedPorts →
       add_port st user iport eport r
         = (set_container_ports
              (proxy_add { st with forwardedPorts := pySetAdd st.forwardedPorts eport }
                eport user iport)
              (user_container st.cfg user) (dictInsert existing iport eport),
            .ok eport))
  ∧ (dictMem existing iport = false → existing.length ≠ st.cfg.portsMax → eport = 0 →
       st.forwardedPorts.Nodup → 0 ≤ st.cfg.portsEnd →
       ((st.forwardedPorts.length : Int) + st.cfg.portsStart < st.cfg.portsEnd) →
       st.cfg.portsStart ≤ r → r + st.forwardedPorts.length ≤ st.cfg.portsEnd →
       0 ∉ st.forwardedPorts →
       ∃ ep, add_port st user iport eport r
           = (set_container_ports
                (proxy_add { st with forwardedPorts := pySetAdd st.forwardedPorts ep }
                  ep user iport)
                (user_container st.cfg user) (dictInsert existing iport ep),
              .ok ep)
         ∧ st.cfg.portsStart ≤ ep ∧ ep ≤ st.cfg.portsEnd ∧ ep ∉ st.forwardedPorts) := by
  have hipr : ¬(iport ≤ 0 ∨ iport > 65535) := by omega
  refine ⟨?_, ?_, ?_, ?_, ?_, ?_⟩
  · intro hmem
    refine ⟨pys "is already forwarded to port", ?_⟩
    simp only [add_port, hcd, hex]
    rw [if_neg hipr, if_pos hmem]
  · intro hmem hlen
    have hmem' : ¬(dictMem existing iport = true) := by simp [hmem]
    refine ⟨pys "you cannot forward any more ports", ?_⟩
    simp only [add_port, hcd, hex]
    rw [if_neg hipr, if_neg hmem', if_pos hlen]
  · intro hmem hlen hbad
    have hmem' : ¬(dictMem existing iport = true) := by simp [hmem]
    refine ⟨pys "is not a valid port", ?_⟩
    simp only [add_port, hcd, hex, check_valid_port]
    rw [if_neg hipr, if_neg hmem', if_neg hlen, if_pos hbad]
  · intro hmem hlen hgood hfwd
    have hmem' : ¬(dictMem existing iport = true) := by simp [hmem]
    refine ⟨pys "has already been forwarded", ?_⟩
    simp only [add_port, hcd, hex, check_valid_port]
    rw [if_neg hipr, if_neg hmem', if_neg hlen, if_neg hgood, if_pos hfwd]
  · intro hmem hlen hne hlo hhi hfwd
    have hmem' : ¬(dictMem existing iport = true) := by simp [hmem]
    have hgood : ¬((eport ≠ 0 ∧ eport < st.cfg.portsStart) ∨ eport > st.cfg.portsEnd) := by
      omega
    simp only [add_port, hcd, hex, check_valid_port]
    rw [if_neg hipr, if_neg hmem', if_neg hlen, if_neg hgood, if_neg hfwd, if_neg hne]
  · intro hmem hlen hz hnd hend hroom hr1 hr2 h0
    have hmem' : ¬(dictMem existing iport = true) := by simp [hmem]
    have hgood : ¬((eport ≠ 0 ∧ eport < st.cfg.portsStart) ∨ eport > st.cfg.portsEnd) := by
      subst hz
      omega
    have hfwd : eport ∉ st.forwardedPorts := by rw [hz]; exact h0
    have hsortlt : (st.forwardedPorts.insertionSort (· ≤ ·)).Sorted (· < ·) :=
      List.Sorted.lt_of_le (List.sorted_insertionSort (· ≤ ·) st.forwardedPorts)
        ((List.perm_insertionSort (· ≤ ·) st.forwardedPorts).nodup_iff.mpr hnd)
    have hnrp : next_random_port st.cfg st.forwardedPorts r
        = .ok (walkExclusions (st.forwardedPorts.insertionSort (· ≤ ·)) r) := by
      simp only [next_random_port, List.length_insertionSort]
      rw [if_neg (by omega), if_neg (by omega)]
    have hge := walk_ge (st.forwardedPorts.insertionSort (· ≤ ·)) r
    have hle := walk_le (st.forwardedPorts.insertionSort (· ≤ ·)) r
    rw [List.length_insertionSort] at hle
    have hnm := walk_not_mem (st.forwardedPorts.insertionSort (· ≤ ·)) hsortlt r
    rw [List.mem_insertionSort] at hnm
    refine ⟨walkExclusions (st.forwardedPorts.insertionSort (· ≤ ·)) r, ?_,
      by omega, by omega, hnm⟩
    simp only [add_port, hcd, hex, check_valid_port]
    rw [if_neg hipr, if_neg hmem', if_neg hlen, if_neg hgood, if_neg hfwd, if_pos hz, hnrp]

/-- State for the C7 witness: range 10–13 with port 11 already forwarded and
no ports on alice's container. -/
def stPortW : MState := { stBase with cfg := cfgWPorts, forwardedPorts := [11] }

/-- Witness for `C7_theorem` on `stPortW` with internal port 80, requested
external port 12 and draw 10. -/
theorem C7_witness :
    (dictGet? stPortW.containers (user_container stPortW.cfg (pys "alice")) = some cdAliceW
     ∧ get_container_ports cdAliceW = .ok []
     ∧ (0 : Int) < 80 ∧ (80 : Int) ≤ 65535)
  ∧ ((dictMem ([] : List (Int × Int)) 80 = true →
       ∃ m, add_port stPortW (pys "alice") 80 12 10 = (stPortW, .error (.webspace m)))
  ∧ (dictMem ([] : List (Int × Int)) 80 = false
       → ([] : List (Int × Int)).length = stPortW.cfg.portsMax →
       ∃ m, add_port stPortW (pys "alice") 80 12 10 = (stPortW, .error (.webspace m)))
  ∧ (dictMem ([] : List (Int × Int)) 80 = false
       → ([] : List (Int × Int)).length ≠ stPortW.cfg.portsMax →
       (((12 : Int) ≠ 0 ∧ (12 : Int) < stPortW.cfg.portsStart) ∨ (12 : Int) > stPortW.cfg.portsEnd) →
       ∃ m, add_port stPortW (pys "alice") 80 12 10 = (stPortW, .error (.webspace m)))
  ∧ (dictMem ([] : List (Int × Int)) 80 = false
       → ([] : List (Int × Int)).length ≠ stPortW.cfg.portsMax →
       ¬(((12 : Int) ≠ 0 ∧ (12 : Int) < stPortW.cfg.portsStart) ∨ (12 : Int) > stPortW.cfg.portsEnd) →
       (12 : Int) ∈ stPortW.forwardedPorts →
       ∃ m, add_port stPortW (pys "alice") 80 12 10 = (stPortW, .error (.webspace m)))
  ∧ (dictMem ([] : List (Int × Int)) 80 = false
       → ([] : List (Int × Int)).length ≠ stPortW.cfg.portsMax →
       (12 : Int) ≠ 0 → stPortW.cfg.portsStart ≤ (12 : Int) → (12 : Int) ≤ stPortW.cfg.portsEnd →
       (12 : Int) ∉ stPortW.forwardedPorts →
       add_port stPortW (pys "alice") 80 12 10
         = (set_container_ports
              (proxy_add { stPortW with forwardedPorts := pySetAdd stPortW.forwardedPorts 12 }
                12 (pys "alice") 80)
              (user_container stPortW.cfg (pys "alice")) (dictInsert [] 80 12),
            .ok 12))
  ∧ (dictMem ([] : List (Int × Int)) 80 = false
       → ([] : List (Int × Int)).length ≠ stPortW.cfg.portsMax → (12 : Int) = 0 →
       stPortW.forwardedPorts.Nodup → (0 : Int) ≤ stPortW.cfg.portsEnd →
       ((stPortW.forwardedPorts.length : Int) + stPortW.cfg.portsStart < stPortW.cfg.portsEnd) →
       stPortW.cfg.portsStart ≤ (10 : Int) → (10 : Int) + stPortW.forwardedPorts.length ≤ stPortW.cfg.portsEnd →
       (0 : Int) ∉ stPortW.forwardedPorts →
       ∃ ep, add_port stPortW (pys "alice") 80 12 10
           = (set_container_ports
                (proxy_add { stPortW with forwardedPorts := pySetAdd stPortW.forwardedPorts ep }
                  ep (pys "alice") 80)
                (user_container stPortW.cfg (pys "alice")) (dictInsert [] 80 ep),
              .ok ep)
         ∧ stPortW.cfg.portsStart ≤ ep ∧ ep ≤ stPortW.cfg.portsEnd ∧ ep ∉ stPortW.forwardedPorts)) :=
  ⟨⟨by decide, by decide, by decide, by decide⟩,
   C7_theorem stPortW (pys "alice") 80 12 10 cdAliceW []
     (by decide) (by decide) (by decide) (by decide)⟩

/-! ## C8 — no duplicates in the running set -/

/-- Status consistency: every name listed in `running_containers` refers to a
container the runtime reports as running (no out-of-band stop has happened). -/
def consistentRunning (st : MState) : Prop :=
  ∀ n ∈ st.runningContainers, (dictGet? st.containers n).any (fun cd => cd.statusCode == 103) = true

instance (st : MState) : Decidable (consistentRunning st) := by
  unfold consistentRunning
  infer_instance

/-- A successful `list.remove` yields a sublist. -/
theorem listRemove_ok_sublist {α : Type} [DecidableEq α] (l l' : List α) (a : α)
    (h : listRemove l a = .ok l') : l'.Sublist l := by
  induction l generalizing l' with
  | nil => simp [listRemove] at h
  | cons x rest ih =>
      simp only [listRemove] at h
      by_cases hx : x = a
      · rw [if_pos hx] at h
        cases h
        exact List.sublist_cons_self x rest
      · rw [if_neg hx] at h
        cases hr : listRemove rest a with
        | error e => rw [hr] at h; cases h
        | ok rest' =>
            rw [hr] at h
            cases h
            exact List.Sublist.cons₂ x (ih rest' hr)

/-- `stop_container` keeps the running list duplicate-free. -/
theorem stop_container_nodup (st : MState) (cname : PyStr)
    (hnd : st.runningContainers.Nodup) :
    (stop_container st cname).1.runningContainers.Nodup := by
  simp only [stop_container]
  cases hr : listRemove st.runningContainers cname with
  | error e => exact hnd
  | ok rest => exact (listRemove_ok_sublist _ _ _ hr).nodup hnd

/-- `stop_container` only removes names from the running list. -/
theorem stop_container_running_sublist (st : MState) (cname : PyStr) :
    (stop_container st cname).1.runningContainers.Sublist st.runningContainers := by
  simp only [stop_container]
  cases hr : listRemove st.runningContainers cname with
  | error e => exact List.Sublist.refl _
  | ok rest => exact listRemove_ok_sublist _ _ _ hr

/-- Appending a fresh name keeps a duplicate-free list duplicate-free. -/
theorem nodup_append_singleton {α : Type} (l : List α) (a : α)
    (hnd : l.Nodup) (ha : a ∉ l) : (l ++ [a]).Nodup :=
  (List.perm_append_singleton a l).nodup_iff.mpr (List.nodup_cons.mpr ⟨ha, hnd⟩)

/-- `start_container` keeps the running list duplicate-free when the target is
not already listed. -/
theorem start_container_nodup (st : MState) (cname : PyStr)
    (hnd : st.runningContainers.Nodup) (hnotin : cname ∉ st.runningContainers) :
    (start_container st cname).1.runningContainers.Nodup := by
  simp only [start_container]
  by_cases hlim : st.runningContainers.length = st.cfg.runLimit
  · rw [if_pos hlim]
    cases hrc : st.runningContainers with
    | nil => simp [hrc] at hnd hnotin ⊢
    | cons c rest =>
        rw [hrc] at hnd hnotin
        rw [List.nodup_cons] at hnd
        simp only [List.mem_cons, not_or] at hnotin
        simp only
        cases hg : dictGet? { st with runningContainers := rest }.containers c with
        | none => simpa using hnd.2
        | some cd =>
            simp only
            by_cases hstat : cd.statusCode = 103
            · rw [if_pos hstat]
              cases hsr : (stop_container { st with runningContainers := rest } c).2 with
              | error e =>
                  exact stop_container_nodup _ _ hnd.2
              | ok u =>
                  simp only
                  split
                  · exact nodup_append_singleton _ _ (stop_container_nodup _ _ hnd.2)
                      (fun hm =>
                        hnotin.2 ((stop_container_running_sublist
                          { st with runningContainers := rest } c).subset hm))
                  · split
                    · exact nodup_append_singleton _ _ (stop_container_nodup _ _ hnd.2)
                        (fun hm =>
                          hnotin.2 ((stop_container_running_sublist
                            { st with runningContainers := rest } c).subset hm))
                    · exact nodup_append_singleton _ _ (stop_container_nodup _ _ hnd.2)
                        (fun hm =>
                          hnotin.2 ((stop_container_running_sublist
                            { st with runningContainers := rest } c).subset hm))
            · rw [if_neg hstat]
              simp only
              split
              · exact nodup_append_singleton _ _ hnd.2 hnotin.2
              · split
                · exact nodup_append_singleton _ _ hnd.2 hnotin.2
                · exact nodup_append_singleton _ _ hnd.2 hnotin.2
  · rw [if_neg hlim]
    simp only
    split
    · exact nodup_append_singleton _ _ hnd hnotin
    · split
      · exact nodup_append_singleton _ _ hnd hnotin
      · exact nodup_append_singleton _ _ hnd hnotin

/-- Booting an already-running, listed container changes neither the running
list nor the runtime. -/
theorem get_container_ip_running_eq (st : MState) (cname : PyStr) (cd0 : ContainerData)
    (hcd : dictGet? st.containers cname = some cd0) (hstat : cd0.statusCode = 103) :
    (get_container_ip st cname).1.runningContainers = st.runningContainers
  ∧ (get_container_ip st cname).1.containers = st.containers := by
  simp only [get_container_ip, hcd]
  rw [if_neg (by simp [hstat])]
  simp only
  split
  · exact ⟨rfl, rfl⟩
  · split
    · exact ⟨rfl, rfl⟩
    · split
      · exact ⟨rfl, rfl⟩
      · split
        · exact ⟨rfl, rfl⟩
        · exact ⟨rfl, rfl⟩

/-- `get_container_ip` keeps the running list duplicate-free on consistent
states. -/
theorem get_container_ip_nodup (st : MState) (cname : PyStr)
    (hnd : st.runningContainers.Nodup) (hcons : consistentRunning st) :
    (get_container_ip st cname).1.runningContainers.Nodup := by
  simp only [get_container_ip]
  cases hcd : dictGet? st.containers cname with
  | none => exact hnd
  | some cd0 =>
      simp only
      by_cases hstat : cd0.statusCode = 103
      · rw [if_neg (by simp [hstat])]
        simp only
        split
        · exact hnd
        · split
          · exact hnd
          · split
            · exact hnd
            · split
              · exact hnd
              · exact hnd
      · have hnotin : cname ∉ st.runningContainers := by
          intro hm
          have hc := hcons cname hm
          rw [hcd] at hc
          simp only [Option.any_some, beq_iff_eq] at hc
          exact hstat hc
        rw [if_pos (by simp [hstat])]
        have hstart := start_container_nodup st cname hnd hnotin
        cases hb : (start_container st cname).2 with
        | error e => exact hstart
        | ok u =>
            simp only
            split
            · exact hstart
            · split
              · exact hstart
              · split
                · exact hstart
                · split
                  · exact hstart
                  · exact hstart

/-- `release_ports` never touches the running list. -/
theorem release_ports_running (st : MState) (l : List Int) :
    (release_ports st l).1.runningContainers = st.runningContainers := by
  induction l generalizing st with
  | nil => rfl
  | cons e rest ih =>
      simp only [release_ports, proxy_remove]
      split
      · exact ih _
      · rfl

/-- `setOption` never touches the running list. -/
theorem setOption_running (st : MState) (user key value : PyStr) :
    (setOption st user key value).1.runningContainers = st.runningContainers := by
  simp only [setOption]
  repeat' split
  all_goals rfl

/-- `unsetOption` never touches the running list. -/
theorem unsetOption_running (st : MState) (user key : PyStr) :
    (unsetOption st user key).1.runningContainers = st.runningContainers := by
  simp only [unsetOption]
  repeat' split
  all_goals rfl

/-- `add_domain` never touches the running list. -/
theorem add_domain_running (dns : PyStr → List PyStr) (st : MState) (user domain : PyStr) :
    (add_domain dns st user domain).1.runningContainers = st.runningContainers := by
  simp only [add_domain, set_container_domains]
  repeat' split
  all_goals rfl

/-- `remove_domain` never touches the running list. -/
theorem remove_domain_running (st : MState) (user domain : PyStr) :
    (remove_domain st user domain).1.runningContainers = st.runningContainers := by
  simp only [remove_domain, set_container_domains]
  repeat' split
  all_goals rfl

/-- `add_port` never touches the running list. -/
theorem add_port_running (st : MState) (user : PyStr) (iport eport r : Int) :
    (add_port st user iport eport r).1.runningContainers = st.runningContainers := by
  simp only [add_port, set_container_ports, proxy_add]
  repeat' split
  all_goals rfl

/-- `remove_port` never touches the running list. -/
theorem remove_port_running (st : MState) (user : PyStr) (iport : Int) :
    (remove_port st user iport).1.runningContainers = st.runningContainers := by
  simp only [remove_port, set_container_ports, proxy_remove]
  repeat' split
  all_goals rfl

/-- `exec_close` never touches the running list. -/
theorem exec_close_running (st : MState) (user sid : PyStr) :
    (exec_close st user sid).1.runningContainers = st.runningContainers := by
  simp only [exec_close]
  repeat' split
  all_goals rfl

/-- `reboot` never touches the running list. -/
theorem reboot_running (st : MState) (user : PyStr) :
    (reboot st user).1.runningContainers = st.runningContainers := by
  simp only [reboot]
  repeat' split
  all_goals rfl

/-- `shutdown` keeps the running list duplicate-free. -/
theorem shutdown_nodup (st : MState) (user : PyStr) (hnd : st.runningContainers.Nodup) :
    (shutdown st user).1.runningContainers.Nodup := by
  simp only [shutdown]
  split
  · exact hnd
  · split
    · exact hnd
    · exact stop_container_nodup _ _ hnd

/-- `delete` keeps the running list duplicate-free. -/
theorem delete_nodup (st : MState) (user : PyStr) (hnd : st.runningContainers.Nodup) :
    (delete st user).1.runningContainers.Nodup := by
  simp only [delete]
  split
  · exact hnd
  · rename_i cd heq
    have hstop1 : (if cd.statusCode = 103 then
          stop_container st (user_container st.cfg user)
        else (st, Except.ok ())).1.runningContainers.Nodup := by
      split
      · exact stop_container_nodup _ _ hnd
      · exact hnd
    split
    · exact hstop1
    · split
      · exact hstop1
      · split
        · rw [release_ports_running]
          exact hstop1
        · show ((release_ports _ _).1.runningContainers).Nodup
          rw [release_ports_running]
          exact hstop1

/-- **C8 (amended)**: on a duplicate-free, status-consistent state (every
listed container is actually running — no out-of-band stop), asking
`get_container_ip` for the container at the top of `RunningSet` (which is
running, so the boot-on-demand guard skips `start_container`) leaves both the
running list and the runtime untouched — no duplicate, no eviction; and every
modelled operation keeps the running list duplicate-free. -/
theorem C8_amended (st : MState)
    (hnd : st.runningContainers.Nodup) (hcons : consistentRunning st) :
    (∀ cname, st.runningContainers.head? = some cname →
        (get_container_ip st cname).1.runningContainers = st.runningContainers
      ∧ (get_container_ip st cname).1.containers = st.containers)
  ∧ (∀ op, (applyOp st op).1.runningContainers.Nodup) := by
  constructor
  · intro cname hhead
    have hmem : cname ∈ st.runningContainers := by
      cases hl : st.runningContainers with
      | nil => rw [hl] at hhead; cases hhead
      | cons a l =>
          rw [hl] at hhead
          simp only [List.head?_cons, Option.some.injEq] at hhead
          subst hhead
          exact List.mem_cons_self _ _
    have hc := hcons cname hmem
    cases hcd : dictGet? st.containers cname with
    | none => rw [hcd] at hc; simp at hc
    | some cd0 =>
        rw [hcd] at hc
        simp only [Option.any_some, beq_iff_eq] at hc
        exact get_container_ip_running_eq st cname cd0 hcd hc
  · intro op
    cases op with
    | opGetIp cname => exact get_container_ip_nodup st cname hnd hcons
    | opShutdown user => exact shutdown_nodup st user hnd
    | opReboot user =>
        simp only [applyOp, reboot_running]
        exact hnd
    | opDelete user => exact delete_nodup st user hnd
    | opSetOption user key value =>
        simp only [applyOp, setOption_running]
        exact hnd
    | opUnsetOption user key =>
        simp only [applyOp, unsetOption_running]
        exact hnd
    | opAddDomain dns user domain =>
        simp only [applyOp, add_domain_running]
        exact hnd
    | opRemoveDomain user domain =>
        simp only [applyOp, remove_domain_running]
        exact hnd
    | opAddPort user iport eport r =>
        simp only [applyOp, add_port_running]
        exact hnd
    | opRemovePort user iport =>
        simp only [applyOp, remove_port_running]
        exact hnd
    | opExecClose user sid =>
        simp only [applyOp, exec_close_running]
        exact hnd

/-- State with alice's container stopped out-of-band while still listed at
index 0 of `running_containers` (`run_limit = 2`, so no eviction). -/
def stOobW : MState :=
  { stBase with cfg := cfgW2, containers := [(pys "alice-ws", cdAliceStoppedW)] }

/-- **C8 counterexample**: alice's name sits at index 0 of `RunningSet`, but
the container was stopped out-of-band, so the boot-on-demand path calls
`start_container`, which appends the name again without any membership check:
the running list ends as `['alice-ws', 'alice-ws']`. -/
theorem C8_counterexample :
    stOobW.runningContainers = [pys "alice-ws"]
  ∧ stOobW.runningContainers.head? = some (pys "alice-ws")
  ∧ (get_container_ip stOobW (pys "alice-ws")).1.runningContainers
      = [pys "alice-ws", pys "alice-ws"]
  ∧ ¬ (get_container_ip stOobW (pys "alice-ws")).1.runningContainers.Nodup := by
  refine ⟨?_, ?_, ?_, ?_⟩ <;> decide

/-- Witness for `C8_amended` on the consistent base state. -/
theorem C8_witness :
    (stBase.runningContainers.Nodup ∧ consistentRunning stBase)
  ∧ ((∀ cname, stBase.runningContainers.head? = some cname →
        (get_container_ip stBase cname).1.runningContainers = stBase.runningContainers
      ∧ (get_container_ip stBase cname).1.containers = stBase.containers)
    ∧ (∀ op, (applyOp stBase op).1.runningContainers.Nodup)) :=
  ⟨⟨by decide, by decide⟩, C8_amended stBase (by decide) (by decide)⟩
